import Mathlib

/-! pofile: the PO catalogue dictionary of `pofile/dict.go`

A shallow embedding of `pofile/dict.go` and theorems about it.

* Go strings are modelled as lists of characters (`Str`).
* The Go map `Dictionary` is an association list without duplicate keys
  (`AList`); `self[k] = v` is `AList.insert`, `delete(self, k)` is
  `AList.erase`, `range` visits `entries` (whose order is arbitrary).
* A call either returns (with its `error` result) or stops with a run-time
  panic (index or slice bound out of range); both carry the receiver map as
  the call left it, since the map is updated in place.
* The regular expressions are modelled by the functions that compute their
  match and first group; `CSVString` and `LoadCSV` take the functions of
  `encoding/csv` as parameters, and `csv.Write`, `csv.ReadAll` model those of
  the Go standard library.
-/

namespace Pofile

/-- A Go string. -/
abbrev Str := List Char

/-- The Go type `Dictionary`, `map[string]string`. -/
abbrev Dictionary := AList (fun _ : Str => Str)

/-- The value returned in the `error` result of a call. -/
inductive Error where
  | ErrFieldCount
  | ErrQuote
  | ErrBareQuote
  deriving DecidableEq, Repr

/-- How a call ends: it returns its `error` result, or it panics. -/
inductive Outcome where
  | returned (self : Dictionary) (err : Option Error)
  | panicked (self : Dictionary)
  deriving DecidableEq

/-- The receiver map as the call left it. -/
def Outcome.dict : Outcome → Dictionary
  | .returned d _ => d
  | .panicked d => d

/-- Modelled from the spec: the constants `STATE_COMPLETE`, `STATE_COMMENT`,
`STATE_MSGID` and `STATE_MSGSTR`, which `dict.go` uses and does not declare;
the spec's `ScanState` enumeration (`Complete`, `InComment`, `InMsgId`,
`InMsgStr`), four distinct values. -/
inductive State where
  | STATE_COMPLETE
  | STATE_COMMENT
  | STATE_MSGID
  | STATE_MSGSTR
  deriving DecidableEq, Repr

open State

/-! ## Regular expressions -/

/-- The class `\s` of Go regular expressions: `[\t\n\f\r ]`. -/
def isSpace (c : Char) : Bool :=
  c == '\t' || c == '\n' || c == '\x0c' || c == '\r' || c == ' '

/-- `EmptyLineRegExp.MatchString`, the pattern `^\s*$`: the whole text is
whitespace. -/
def EmptyLineRegExp (s : Str) : Bool :=
  s.all isSpace

/-- `CommentRegExp.MatchString`, the pattern `^\s*#`: the first character after
the leading whitespace is `#`. -/
def CommentRegExp (s : Str) : Bool :=
  match s.dropWhile isSpace with
  | c :: _ => c == '#'
  | [] => false

/-- The tail `(.*)"` of the three string patterns, matched at the start of `s`:
the group is the longest run of characters other than newline that is followed
by a double quote (`.*` is greedy and `.` does not match a newline). -/
def dotStarQuote : Str → Option Str
  | [] => none
  | c :: rest =>
    if c = '\n' then none
    else
      match dotStarQuote rest with
      | some g => some (c :: g)
      | none => if c = '"' then some [] else none

/-- `StringRegExp.FindStringSubmatch(s)`, the pattern `"(.*)"`: `none` is the
nil slice of a failed match, `some g` a match whose element `[1]` is `g`. The
match starts at the leftmost double quote from which the pattern matches. -/
def StringRegExp : Str → Option Str
  | [] => none
  | c :: rest =>
    if c = '"' then
      match dotStarQuote rest with
      | some g => some g
      | none => StringRegExp rest
    else StringRegExp rest

/-- `strings.HasPrefix(s, p)`. -/
def HasPrefix (s p : Str) : Bool :=
  p.isPrefixOf s

/-- The patterns `^msgid\s+"(.*)"` and `^msgstr\s+"(.*)"`, for the keyword
`kw`: the keyword at the start of the text, one or more whitespace characters,
a double quote, then `(.*)"`. -/
def keywordRegExp (kw : Str) (s : Str) : Option Str :=
  if HasPrefix s kw then
    let r := s.drop kw.length
    match r.dropWhile isSpace with
    | c :: t =>
      if c = '"' ∧ (r.takeWhile isSpace) ≠ [] then dotStarQuote t else none
    | [] => none
  else none

/-- `MsgIdRegExp.FindStringSubmatch`: `none` is the nil slice, `some g` a match
whose element `[1]` is `g`. -/
def MsgIdRegExp (s : Str) : Option Str :=
  keywordRegExp "msgid".toList s

/-- `MsgStrRegExp.FindStringSubmatch`. -/
def MsgStrRegExp (s : Str) : Option Str :=
  keywordRegExp "msgstr".toList s

/-! ## The dictionary store -/

/-- `NewDictionary()` and the literal `Dictionary{}`. -/
def NewDictionary : Dictionary := ∅

/-- `self[msgId] = msgStr`. -/
def AddMessage (self : Dictionary) (msgId msgStr : Str) : Dictionary :=
  self.insert msgId msgStr

/-- `_, ok := self[msgId]; return ok`. -/
def HasMessage (self : Dictionary) (msgId : Str) : Bool :=
  (self.lookup msgId).isSome

/-- `delete(self, msgId)`. -/
def RemoveMessage (self : Dictionary) (msgId : Str) : Dictionary :=
  self.erase msgId

/-! ## The PO scanner -/

/-- `strings.Split(content, "\n")`. -/
def Split : Str → List Str
  | [] => [[]]
  | c :: cs =>
    if c = '\n' then [] :: Split cs
    else
      match Split cs with
      | l :: ls => (c :: l) :: ls
      | [] => [[c]]

/-- `strings.Join(parts, "")`. -/
def Join (parts : List Str) : Str :=
  parts.flatten

/-- The variables of the loop of `ParseAndLoad`. -/
structure Scan where
  self : Dictionary
  lastMsgId : List Str
  lastMsgStr : List Str
  state : State
  deriving DecidableEq

/-- One iteration of the loop of `ParseAndLoad`, on `line`; `none` when the
iteration panics (element `[1]` of a nil submatch slice). -/
def scanLine (sc : Scan) (line : Str) : Option Scan :=
  if line.length = 0 ∨ EmptyLineRegExp line then
    if sc.state = STATE_MSGSTR then
      some { self := AddMessage sc.self (Join sc.lastMsgId) (Join sc.lastMsgStr),
             lastMsgId := [], lastMsgStr := [], state := STATE_COMPLETE }
    else some sc
  else if line.head? = some '#' ∨ CommentRegExp line then
    some { sc with state := STATE_COMMENT }
  else if HasPrefix line "msgid".toList ∨ (MsgIdRegExp line).isSome then
    match MsgIdRegExp line with
    | some msgId => some { sc with state := STATE_MSGID, lastMsgId := sc.lastMsgId ++ [msgId] }
    | none => none
  else if HasPrefix line "msgstr".toList ∨ (MsgStrRegExp line).isSome then
    match MsgStrRegExp line with
    | some msgStr => some { sc with state := STATE_MSGSTR, lastMsgStr := sc.lastMsgStr ++ [msgStr] }
    | none => none
  else
    match StringRegExp line with
    | some str =>
      if sc.state = STATE_MSGID then some { sc with lastMsgId := sc.lastMsgId ++ [str] }
      else if sc.state = STATE_MSGSTR then some { sc with lastMsgStr := sc.lastMsgStr ++ [str] }
      else some sc
    | none => some sc

/-- The loop `for _, line := range lines` of `ParseAndLoad`, then
`return nil`. -/
def scanLines (sc : Scan) : List Str → Outcome
  | [] => .returned sc.self none
  | line :: rest =>
    match scanLine sc line with
    | some sc' => scanLines sc' rest
    | none => .panicked sc.self

/-- `Dictionary.ParseAndLoad`. -/
def ParseAndLoad (self : Dictionary) (content : Str) : Outcome :=
  scanLines { self := self, lastMsgId := [], lastMsgStr := [], state := STATE_COMPLETE }
    (Split content)

/-! ## Merging -/

/-- `Dictionary.Merge`: `for key, val := range *dict { self[key] = val }`. The
result is the receiver and the argument `*dict` as the call leaves them; the
loop visits the entries of `*dict` in the order of `entries`. -/
def Merge (self dict : Dictionary) : Dictionary × Dictionary :=
  (dict.entries.foldl (fun d e => AddMessage d e.1 e.2) self, dict)

/-! ## The CSV adapters

The functions of `encoding/csv` are parameters of `CSVString` and `LoadCSV`:
`Write` gives the text that `writer.Write(record)` appends to the buffer,
`ReadAll` the two results of `reader.ReadAll()` on the bytes of the buffer
(bytes are modelled as characters). -/

/-- The rows `CSVString` hands to `writer.Write`, in order. -/
def CSVRows (self : Dictionary) : List (List Str) :=
  ["MessageID".toList, "MessageString".toList] :: self.entries.map (fun e => [e.1, e.2])

/-- `Dictionary.CSVString`: the buffer after the calls of `writer.Write` and
`writer.Flush()`. -/
def CSVString (Write : List Str → Str) (self : Dictionary) : Str :=
  ((CSVRows self).map Write).flatten

/-- The loop `for _, item := range items { self.AddMessage(item[0], item[1]) }`
of `LoadCSV`, then `return err`; an `item` with fewer than two fields panics
(index out of range). -/
def loadItems (self : Dictionary) (err : Option Error) : List (List Str) → Outcome
  | [] => .returned self err
  | item :: items =>
    match item with
    | k :: v :: _ => loadItems (AddMessage self k v) err items
    | _ => .panicked self

/-- `Dictionary.LoadCSV`; `items[1:]` panics when `items` has no row (slice
bounds out of range). -/
def LoadCSV (ReadAll : Str → List (List Str) × Option Error) (self : Dictionary) (b : Str) :
    Outcome :=
  match ReadAll b with
  | ([], _) => .panicked self
  | (_ :: items, err) => loadItems self err items

/-- `Dictionary.LoadCSVString`. -/
def LoadCSVString (ReadAll : Str → List (List Str) × Option Error) (self : Dictionary)
    (content : Str) : Outcome :=
  LoadCSV ReadAll self content

/-- The calls `AddMessage(r[0], r[1])` for the rows `r` of `rows`, in order. -/
def addRows (self : Dictionary) (rows : List (List Str)) : Dictionary :=
  rows.foldl (fun d r => AddMessage d (r.getD 0 []) (r.getD 1 [])) self

/-! ## The package `encoding/csv`

The writer and the reader of the Go standard library, with the settings that
`csv.NewWriter` and `csv.NewReader` give them: comma `,`, no comment character,
`FieldsPerRecord` 0, `LazyQuotes`, `TrimLeadingSpace` and `UseCRLF` off. -/

namespace csv

/-- `unicode.IsSpace`. -/
def IsSpace (c : Char) : Bool :=
  let n := c.toNat
  (0x09 ≤ n && n ≤ 0x0d) || n == 0x20 || n == 0x85 || n == 0xa0 || n == 0x1680 ||
    (0x2000 ≤ n && n ≤ 0x200a) || n == 0x2028 || n == 0x2029 || n == 0x202f ||
    n == 0x205f || n == 0x3000

/-- `Writer.fieldNeedsQuotes`. -/
def fieldNeedsQuotes (field : Str) : Bool :=
  if field = [] then false
  else if field = ['\\', '.'] then true
  else if field.any (fun c => c == '\n' || c == '\r' || c == '"' || c == ',') then true
  else
    match field with
    | c :: _ => IsSpace c
    | [] => false

/-- The inside of a quoted field as `Writer.Write` emits it: a double quote is
written twice, every other character (carriage return and newline too) as it
is. -/
def quoteBody : Str → Str
  | [] => []
  | c :: cs => if c = '"' then '"' :: '"' :: quoteBody cs else c :: quoteBody cs

/-- What `Writer.Write` emits for one field. -/
def writeField (field : Str) : Str :=
  if fieldNeedsQuotes field then '"' :: (quoteBody field ++ ['"']) else field

/-- What `Writer.Write` emits for the fields of a record: a comma before every
field but the first. -/
def writeFields : List Str → Str
  | [] => []
  | [f] => writeField f
  | f :: fs => writeField f ++ ',' :: writeFields fs

/-- `Writer.Write(record)`: the fields, then a newline. -/
def Write (record : List Str) : Str :=
  writeFields record ++ ['\n']

/-- What `Reader.readLine` does to the input, line by line: a carriage return
right before a newline is removed, and so is a carriage return that ends the
input. -/
def normalize : Str → Str
  | [] => []
  | c :: cs =>
    if c = '\r' then
      match cs with
      | [] => []
      | d :: _ => if d = '\n' then normalize cs else c :: normalize cs
    else c :: normalize cs

/-- Where `Reader.readRecord` stands in the input. -/
inductive Mode where
  | lineStart
  | fieldStart
  | inField
  | inQuoted
  | afterQuote
  deriving DecidableEq, Repr

/-- The reader: the field and the record being read, the records read, and
`FieldsPerRecord`. -/
structure Reader where
  mode : Mode
  field : Str
  record : List Str
  records : List (List Str)
  FieldsPerRecord : Nat

/-- The end of `readRecord`: the field count is checked against
`FieldsPerRecord`, which is set by the first record. -/
def endRecord (r : Reader) (record : List Str) : Except Error Reader :=
  if r.FieldsPerRecord = 0 then
    .ok { mode := .lineStart, field := [], record := [], records := r.records ++ [record],
          FieldsPerRecord := record.length }
  else if record.length ≠ r.FieldsPerRecord then .error .ErrFieldCount
  else
    .ok { mode := .lineStart, field := [], record := [], records := r.records ++ [record],
          FieldsPerRecord := r.FieldsPerRecord }

/-- The first character `c` of a field. -/
def beginField (r : Reader) (c : Char) : Except Error Reader :=
  if c = '"' then .ok { r with mode := .inQuoted, field := [] }
  else if c = ',' then .ok { r with mode := .fieldStart, field := [], record := r.record ++ [[]] }
  else .ok { r with mode := .inField, field := [c] }

/-- The reader on the next character `c` of the input. -/
def step (r : Reader) (c : Char) : Except Error Reader :=
  match r.mode with
  | .lineStart => if c = '\n' then .ok r else beginField r c
  | .fieldStart => if c = '\n' then endRecord r (r.record ++ [[]]) else beginField r c
  | .inField =>
    if c = '\n' then endRecord r (r.record ++ [r.field])
    else if c = ',' then
      .ok { r with mode := .fieldStart, field := [], record := r.record ++ [r.field] }
    else if c = '"' then .error .ErrBareQuote
    else .ok { r with field := r.field ++ [c] }
  | .inQuoted =>
    if c = '"' then .ok { r with mode := .afterQuote }
    else .ok { r with field := r.field ++ [c] }
  | .afterQuote =>
    if c = '"' then .ok { r with mode := .inQuoted, field := r.field ++ ['"'] }
    else if c = ',' then
      .ok { r with mode := .fieldStart, field := [], record := r.record ++ [r.field] }
    else if c = '\n' then endRecord r (r.record ++ [r.field])
    else .error .ErrQuote

/-- The reader at the end of the input. -/
def finish (r : Reader) : Except Error (List (List Str)) :=
  match r.mode with
  | .lineStart => .ok r.records
  | .fieldStart => (endRecord r (r.record ++ [[]])).map (fun r2 => r2.records)
  | .inField => (endRecord r (r.record ++ [r.field])).map (fun r2 => r2.records)
  | .inQuoted => .error .ErrQuote
  | .afterQuote => (endRecord r (r.record ++ [r.field])).map (fun r2 => r2.records)

/-- The reader on the rest of the input. -/
def run (r : Reader) : Str → Except Error (List (List Str))
  | [] => finish r
  | c :: cs =>
    match step r c with
    | .ok r2 => run r2 cs
    | .error e => .error e

/-- `Reader.ReadAll`: all the records and a nil error, or no record and the
first error. -/
def ReadAll (b : Str) : List (List Str) × Option Error :=
  match run { mode := .lineStart, field := [], record := [], records := [],
              FieldsPerRecord := 0 } (normalize b) with
  | .ok records => (records, none)
  | .error e => ([], some e)

end csv

/-! ## Merging a file -/

/-- `Dictionary.MergeFile`, on the content `content` that `ioutil.ReadFile` gave
for the file: the content is parsed into a new dictionary, which is merged into
the receiver unless the parse returned an error. -/
def MergeFile (self : Dictionary) (content : Str) : Outcome :=
  match ParseAndLoad NewDictionary content with
  | .returned newDict none => .returned (Merge self newDict).1 none
  | .returned _ (some err) => .returned self (some err)
  | .panicked _ => .panicked self

/-! ## Lines and texts used to state the theorems -/

/-- The line `msgid "k"`. -/
def msgidLine (k : Str) : Str :=
  "msgid \"".toList ++ (k ++ ['"'])

/-- The line `msgstr "v"`. -/
def msgstrLine (v : Str) : Str :=
  "msgstr \"".toList ++ (v ++ ['"'])

/-- The continuation line `"s"`. -/
def quotedLine (s : Str) : Str :=
  '"' :: (s ++ ['"'])

/-- The text made of the given lines, each one ended by a newline. -/
def unlines (ls : List Str) : Str :=
  (ls.map (fun l => l ++ ['\n'])).flatten

/-- The string has no newline character. -/
def NoNewline (s : Str) : Prop :=
  '\n' ∉ s

instance (s : Str) : Decidable (NoNewline s) :=
  inferInstanceAs (Decidable ('\n' ∉ s))

/-- The text `msgid "k"\nmsgstr "v"\n\n` of one catalogue entry. -/
def entryText (kv : Str × Str) : Str :=
  unlines [msgidLine kv.1, msgstrLine kv.2, []]

/-- The well-formed catalogue of the given entries, in order. -/
def catalogueText (kvs : List (Str × Str)) : Str :=
  (kvs.map entryText).flatten

/-- The calls `AddMessage(k_1, v_1); ...; AddMessage(k_n, v_n)` on `self`. -/
def addMessages (self : Dictionary) (kvs : List (Str × Str)) : Dictionary :=
  kvs.foldl (fun d kv => AddMessage d kv.1 kv.2) self

/-- The string has no carriage return immediately followed by a newline. -/
def NoCRLF (s : Str) : Prop :=
  ¬ (['\r', '\n'] <:+: s)

instance (s : Str) : Decidable (NoCRLF s) :=
  inferInstanceAs (Decidable (¬ (['\r', '\n'] <:+: s)))

/-- A dictionary whose keys and values hold commas, double quotes, carriage
returns, newlines and a leading space. -/
def sampleDictionary : Dictionary :=
  (AList.singleton "a,\"b\"\n".toList " x\r".toList).insert "\rk".toList "\n\r,\"".toList

/-- The comment line `#c`. -/
def commentLine (c : Str) : Str :=
  '#' :: c

/-- Two calls end alike: both return, with the same `error` result, or both
panic, and the two maps they leave hold the same key to value pairs. -/
def Outcome.Same : Outcome → Outcome → Prop
  | .returned d1 e1, .returned d2 e2 => d1.entries.Perm d2.entries ∧ e1 = e2
  | .panicked d1, .panicked d2 => d1.entries.Perm d2.entries
  | _, _ => False

/-- A dictionary with the entries `a -> 0` and `c -> 3`. -/
def sampleStore : Dictionary :=
  (AList.singleton "a".toList "0".toList).insert "c".toList "3".toList

/-- The entries of `sampleStore`, in the other order. -/
def sampleStoreSwapped : Dictionary :=
  (AList.singleton "c".toList "3".toList).insert "a".toList "0".toList

/-! ## Lemmas on splitting and matching -/

theorem Split_append_newline (l rest : Str) (h : NoNewline l) :
    Split (l ++ '\n' :: rest) = l :: Split rest := by
  induction l with
  | nil => simp [Split]
  | cons c l ih =>
    have hc : c ≠ '\n' := fun e => h (by simp [e])
    have hl : NoNewline l := fun m => h (List.mem_cons_of_mem _ m)
    simp [Split, hc, ih hl]

theorem Split_of_noNewline (l : Str) (h : NoNewline l) : Split l = [l] := by
  induction l with
  | nil => rfl
  | cons c l ih =>
    have hc : c ≠ '\n' := fun e => h (by simp [e])
    have hl : NoNewline l := fun m => h (List.mem_cons_of_mem _ m)
    simp [Split, hc, ih hl]

theorem Split_unlines_append (ls : List Str) (t : Str) (h : ∀ l ∈ ls, NoNewline l) :
    Split (unlines ls ++ t) = ls ++ Split t := by
  induction ls with
  | nil => simp [unlines]
  | cons l ls ih =>
    have hl : NoNewline l := h l (List.mem_cons_self _ _)
    have hls : ∀ x ∈ ls, NoNewline x := fun x hx => h x (List.mem_cons_of_mem _ hx)
    have e : unlines (l :: ls) ++ t = l ++ '\n' :: (unlines ls ++ t) := by
      simp [unlines]
    rw [e, Split_append_newline _ _ hl, ih hls]
    rfl

theorem Split_unlines (ls : List Str) (h : ∀ l ∈ ls, NoNewline l) :
    Split (unlines ls) = ls ++ [[]] := by
  have := Split_unlines_append ls [] h
  simpa [Split] using this

theorem dotStarQuote_none (t : Str) (h : '"' ∉ t) : dotStarQuote t = none := by
  induction t with
  | nil => rfl
  | cons c t ih =>
    have hc : c ≠ '"' := fun e => h (by simp [e])
    have ht : '"' ∉ t := fun m => h (List.mem_cons_of_mem _ m)
    simp [dotStarQuote, ih ht, hc]

theorem dotStarQuote_append (g t : Str) (hg : NoNewline g) (ht : '"' ∉ t) :
    dotStarQuote (g ++ '"' :: t) = some g := by
  induction g with
  | nil => simp [dotStarQuote, dotStarQuote_none t ht]
  | cons c g ih =>
    have hc : c ≠ '\n' := fun e => hg (by simp [e])
    have hg2 : NoNewline g := fun m => hg (List.mem_cons_of_mem _ m)
    simp [dotStarQuote, hc, ih hg2]

theorem dotStarQuote_quoted (g : Str) (hg : NoNewline g) :
    dotStarQuote (g ++ ['"']) = some g :=
  dotStarQuote_append g [] hg (by simp)

theorem MsgIdRegExp_msgidLine (k : Str) (hk : NoNewline k) :
    MsgIdRegExp (msgidLine k) = some k := by
  simp [MsgIdRegExp, keywordRegExp, msgidLine, HasPrefix, isSpace, dotStarQuote_quoted k hk]

theorem MsgStrRegExp_msgstrLine (v : Str) (hv : NoNewline v) :
    MsgStrRegExp (msgstrLine v) = some v := by
  simp [MsgStrRegExp, keywordRegExp, msgstrLine, HasPrefix, isSpace, dotStarQuote_quoted v hv]

theorem StringRegExp_quotedLine (s : Str) (hs : NoNewline s) :
    StringRegExp (quotedLine s) = some s := by
  simp [StringRegExp, quotedLine, dotStarQuote_quoted s hs]

/-! ## Lemmas on one iteration of the scanner -/

theorem scanLine_blank_msgstr (sc : Scan) (h : sc.state = STATE_MSGSTR) :
    scanLine sc [] = some { self := AddMessage sc.self (Join sc.lastMsgId) (Join sc.lastMsgStr),
                            lastMsgId := [], lastMsgStr := [], state := STATE_COMPLETE } := by
  simp [scanLine, h]

theorem scanLine_blank_other (sc : Scan) (h : sc.state ≠ STATE_MSGSTR) :
    scanLine sc [] = some sc := by
  simp [scanLine, h]

theorem scanLine_msgidLine (sc : Scan) (k : Str) (hk : NoNewline k) :
    scanLine sc (msgidLine k) =
      some { sc with state := STATE_MSGID, lastMsgId := sc.lastMsgId ++ [k] } := by
  have h := MsgIdRegExp_msgidLine k hk
  simp [scanLine, h]
  simp [msgidLine, EmptyLineRegExp, CommentRegExp, isSpace]

theorem scanLine_msgstrLine (sc : Scan) (v : Str) (hv : NoNewline v) :
    scanLine sc (msgstrLine v) =
      some { sc with state := STATE_MSGSTR, lastMsgStr := sc.lastMsgStr ++ [v] } := by
  have h := MsgStrRegExp_msgstrLine v hv
  simp [scanLine, h]
  simp [msgstrLine, EmptyLineRegExp, CommentRegExp, isSpace, HasPrefix, MsgIdRegExp, keywordRegExp]

theorem scanLine_quotedLine (sc : Scan) (s : Str) (hs : NoNewline s) :
    scanLine sc (quotedLine s) =
      some (if sc.state = STATE_MSGID then { sc with lastMsgId := sc.lastMsgId ++ [s] }
            else if sc.state = STATE_MSGSTR then { sc with lastMsgStr := sc.lastMsgStr ++ [s] }
            else sc) := by
  have h := StringRegExp_quotedLine s hs
  have e : scanLine sc (quotedLine s) =
      match StringRegExp (quotedLine s) with
      | some str =>
        if sc.state = STATE_MSGID then some { sc with lastMsgId := sc.lastMsgId ++ [str] }
        else if sc.state = STATE_MSGSTR then some { sc with lastMsgStr := sc.lastMsgStr ++ [str] }
        else some sc
      | none => some sc := by
    simp [scanLine, quotedLine, EmptyLineRegExp, CommentRegExp, isSpace, HasPrefix, MsgIdRegExp,
      MsgStrRegExp, keywordRegExp]
  rw [e, h]
  split_ifs <;> rfl

theorem scanLines_cons (sc sc' : Scan) (line : Str) (rest : List Str)
    (h : scanLine sc line = some sc') : scanLines sc (line :: rest) = scanLines sc' rest := by
  simp [scanLines, h]

theorem scanLines_quoted_msgid (ks : List Str) (hks : ∀ s ∈ ks, NoNewline s) (rest : List Str) :
    ∀ sc : Scan, sc.state = STATE_MSGID →
      scanLines sc (ks.map quotedLine ++ rest) =
        scanLines { sc with lastMsgId := sc.lastMsgId ++ ks } rest := by
  induction ks with
  | nil => intro sc _; simp
  | cons k ks ih =>
    intro sc hst
    have hk := hks k (List.mem_cons_self _ _)
    have hr : ∀ s ∈ ks, NoNewline s := fun s m => hks s (List.mem_cons_of_mem _ m)
    have e := scanLine_quotedLine sc k hk
    rw [if_pos hst] at e
    rw [List.map_cons, List.cons_append, scanLines_cons _ _ _ _ e,
      ih hr { sc with lastMsgId := sc.lastMsgId ++ [k] } hst]
    simp

theorem scanLines_quoted_msgstr (vs : List Str) (hvs : ∀ s ∈ vs, NoNewline s) (rest : List Str) :
    ∀ sc : Scan, sc.state = STATE_MSGSTR →
      scanLines sc (vs.map quotedLine ++ rest) =
        scanLines { sc with lastMsgStr := sc.lastMsgStr ++ vs } rest := by
  induction vs with
  | nil => intro sc _; simp
  | cons v vs ih =>
    intro sc hst
    have hv := hvs v (List.mem_cons_self _ _)
    have hr : ∀ s ∈ vs, NoNewline s := fun s m => hvs s (List.mem_cons_of_mem _ m)
    have e := scanLine_quotedLine sc v hv
    have hne : sc.state ≠ STATE_MSGID := by rw [hst]; decide
    rw [if_neg hne, if_pos hst] at e
    rw [List.map_cons, List.cons_append, scanLines_cons _ _ _ _ e,
      ih hr { sc with lastMsgStr := sc.lastMsgStr ++ [v] } hst]
    simp

theorem NoNewline_msgidLine (k : Str) (hk : NoNewline k) : NoNewline (msgidLine k) := by
  unfold NoNewline at *
  simp [msgidLine, hk]

theorem NoNewline_msgstrLine (v : Str) (hv : NoNewline v) : NoNewline (msgstrLine v) := by
  unfold NoNewline at *
  simp [msgstrLine, hv]

theorem NoNewline_quotedLine (s : Str) (hs : NoNewline s) : NoNewline (quotedLine s) := by
  unfold NoNewline at *
  simp [quotedLine, hs]

theorem NoNewline_nil : NoNewline [] := by
  simp [NoNewline]

/-- The scanner on the lines of one multi-line entry followed by a blank line,
started with no pending fragment. -/
theorem scanLines_multiline (sc : Scan) (k : Str) (ks : List Str) (v : Str) (vs : List Str)
    (hk : ∀ s ∈ k :: ks, NoNewline s) (hv : ∀ s ∈ v :: vs, NoNewline s)
    (h1 : sc.lastMsgId = []) (h2 : sc.lastMsgStr = []) (rest : List Str) :
    scanLines sc
        ((msgidLine k :: ks.map quotedLine) ++ ((msgstrLine v :: vs.map quotedLine) ++ [] :: rest))
      = scanLines { self := AddMessage sc.self (Join (k :: ks)) (Join (v :: vs)),
                    lastMsgId := [], lastMsgStr := [], state := STATE_COMPLETE } rest := by
  have hk0 := hk k (List.mem_cons_self _ _)
  have hks : ∀ s ∈ ks, NoNewline s := fun s m => hk s (List.mem_cons_of_mem _ m)
  have hv0 := hv v (List.mem_cons_self _ _)
  have hvs : ∀ s ∈ vs, NoNewline s := fun s m => hv s (List.mem_cons_of_mem _ m)
  rw [List.cons_append, scanLines_cons _ _ _ _ (scanLine_msgidLine sc k hk0),
    scanLines_quoted_msgid ks hks _ _ rfl, List.cons_append,
    scanLines_cons _ _ _ _ (scanLine_msgstrLine _ v hv0),
    scanLines_quoted_msgstr vs hvs _ _ rfl,
    scanLines_cons _ _ _ _ (scanLine_blank_msgstr _ rfl)]
  simp [h1, h2]

theorem scanLines_blank_complete (D : Dictionary) (ids strs : List Str) :
    scanLines { self := D, lastMsgId := ids, lastMsgStr := strs, state := STATE_COMPLETE } [[]]
      = .returned D none := by
  simp [scanLines, scanLine]

/-- C1. Multi-line concatenation: for fragments `k :: ks` and `v :: vs` without
newline, the text of the lines `msgid "k"`, the continuation lines of `ks`,
`msgstr "v"`, the continuation lines of `vs` and a blank line parses into the
empty dictionary as the single entry `Join (k :: ks)` to `Join (v :: vs)`. -/
theorem multiline_concatenation (k : Str) (ks : List Str) (v : Str) (vs : List Str)
    (hk : ∀ s ∈ k :: ks, NoNewline s) (hv : ∀ s ∈ v :: vs, NoNewline s) :
    ParseAndLoad NewDictionary
        (unlines ((msgidLine k :: ks.map quotedLine) ++
          ((msgstrLine v :: vs.map quotedLine) ++ [[]])))
      = .returned (AList.singleton (Join (k :: ks)) (Join (v :: vs))) none := by
  have hl : ∀ l ∈ (msgidLine k :: ks.map quotedLine) ++
      ((msgstrLine v :: vs.map quotedLine) ++ [[]]), NoNewline l := by
    intro l hl
    simp only [List.mem_append, List.mem_cons, List.mem_map, List.mem_singleton] at hl
    rcases hl with (rfl | ⟨s, hs, rfl⟩) | (rfl | ⟨s, hs, rfl⟩) | (rfl | hl)
    · exact NoNewline_msgidLine _ (hk k (List.mem_cons_self _ _))
    · exact NoNewline_quotedLine _ (hk s (List.mem_cons_of_mem _ hs))
    · exact NoNewline_msgstrLine _ (hv v (List.mem_cons_self _ _))
    · exact NoNewline_quotedLine _ (hv s (List.mem_cons_of_mem _ hs))
    · exact NoNewline_nil
    · exact absurd hl (List.not_mem_nil _)
  unfold ParseAndLoad
  rw [Split_unlines _ hl]
  have e : (msgidLine k :: ks.map quotedLine) ++
        ((msgstrLine v :: vs.map quotedLine) ++ [[]]) ++ [[]]
      = (msgidLine k :: ks.map quotedLine) ++
        ((msgstrLine v :: vs.map quotedLine) ++ [] :: [[]]) := by simp
  rw [e, scanLines_multiline _ k ks v vs hk hv rfl rfl, scanLines_blank_complete]
  simp [AddMessage, NewDictionary, AList.insert_empty]

/-- C1, the spec's example: `msgid "Hello, "`, `"world!"`, `msgstr "Bonjour, "`,
`"le monde!"`, blank. -/
theorem multiline_concatenation_witness :
    ParseAndLoad NewDictionary
        "msgid \"Hello, \"\n\"world!\"\nmsgstr \"Bonjour, \"\n\"le monde!\"\n\n".toList
      = .returned (AList.singleton "Hello, world!".toList "Bonjour, le monde!".toList) none :=
  multiline_concatenation "Hello, ".toList ["world!".toList] "Bonjour, ".toList
    ["le monde!".toList] (by decide) (by decide)

/-! ## Well-formed catalogues -/

theorem Split_entryText_append (kv : Str × Str) (t : Str)
    (h : NoNewline kv.1 ∧ NoNewline kv.2) :
    Split (entryText kv ++ t) = [msgidLine kv.1, msgstrLine kv.2, []] ++ Split t := by
  apply Split_unlines_append
  intro l hl
  simp only [List.mem_cons, List.mem_singleton] at hl
  rcases hl with rfl | rfl | rfl | hl
  · exact NoNewline_msgidLine _ h.1
  · exact NoNewline_msgstrLine _ h.2
  · exact NoNewline_nil
  · exact absurd hl (List.not_mem_nil _)

theorem scanLines_entry (D : Dictionary) (kv : Str × Str) (rest : List Str)
    (h : NoNewline kv.1 ∧ NoNewline kv.2) :
    scanLines { self := D, lastMsgId := [], lastMsgStr := [], state := STATE_COMPLETE }
        ([msgidLine kv.1, msgstrLine kv.2, []] ++ rest)
      = scanLines { self := AddMessage D kv.1 kv.2, lastMsgId := [], lastMsgStr := [],
                    state := STATE_COMPLETE } rest := by
  have e := scanLines_multiline
    { self := D, lastMsgId := [], lastMsgStr := [], state := STATE_COMPLETE }
    kv.1 [] kv.2 [] (by simpa using h.1) (by simpa using h.2) rfl rfl rest
  simpa [Join] using e

theorem scanLines_catalogue (kvs : List (Str × Str))
    (h : ∀ kv ∈ kvs, NoNewline kv.1 ∧ NoNewline kv.2) (t : Str) :
    ∀ D : Dictionary,
      scanLines { self := D, lastMsgId := [], lastMsgStr := [], state := STATE_COMPLETE }
          (Split (catalogueText kvs ++ t))
        = scanLines { self := addMessages D kvs, lastMsgId := [], lastMsgStr := [],
                      state := STATE_COMPLETE } (Split t) := by
  induction kvs with
  | nil => intro D; simp [catalogueText, addMessages]
  | cons kv kvs ih =>
    intro D
    have hkv := h kv (List.mem_cons_self _ _)
    have hr : ∀ x ∈ kvs, NoNewline x.1 ∧ NoNewline x.2 :=
      fun x m => h x (List.mem_cons_of_mem _ m)
    have e : catalogueText (kv :: kvs) ++ t = entryText kv ++ (catalogueText kvs ++ t) := by
      simp [catalogueText]
    rw [e, Split_entryText_append kv _ hkv, scanLines_entry D kv _ hkv, ih hr]
    rfl

theorem addMessages_append (D : Dictionary) (xs ys : List (Str × Str)) :
    addMessages D (xs ++ ys) = addMessages (addMessages D xs) ys := by
  simp [addMessages, List.foldl_append]

theorem lookup_addMessages_of_not_mem (k : Str) (kvs : List (Str × Str))
    (h : k ∉ kvs.map Prod.fst) :
    ∀ D : Dictionary, (addMessages D kvs).lookup k = D.lookup k := by
  induction kvs with
  | nil => intro D; rfl
  | cons kv kvs ih =>
    intro D
    have h1 : k ≠ kv.1 := fun e => h (by simp [e])
    have h2 : k ∉ kvs.map Prod.fst := fun m => h (by simp at m ⊢; exact Or.inr m)
    have e : addMessages D (kv :: kvs) = addMessages (AddMessage D kv.1 kv.2) kvs := rfl
    rw [e, ih h2, AddMessage, AList.lookup_insert_ne h1]

/-- C2. Parsing a well-formed catalogue equals inserting its entries in order:
for every dictionary `D` and every list of pairs without newline, `ParseAndLoad`
on the catalogue `msgid "k_i"\nmsgstr "v_i"\n\n` (in order) returns a nil error
and leaves `D` as `AddMessage(k_1, v_1); ...; AddMessage(k_n, v_n)` does; a key
then has the value of its last occurrence in the list. -/
theorem parse_catalogue (D : Dictionary) (kvs : List (Str × Str))
    (h : ∀ kv ∈ kvs, NoNewline kv.1 ∧ NoNewline kv.2) :
    ParseAndLoad D (catalogueText kvs) = .returned (addMessages D kvs) none ∧
    ∀ (pre post : List (Str × Str)) (k v : Str), kvs = pre ++ (k, v) :: post →
      k ∉ post.map Prod.fst → (addMessages D kvs).lookup k = some v := by
  constructor
  · have e := scanLines_catalogue kvs h [] D
    rw [List.append_nil] at e
    unfold ParseAndLoad
    rw [e]
    exact scanLines_blank_complete _ _ _
  · intro pre post k v hkvs hk
    subst hkvs
    have e : pre ++ (k, v) :: post = (pre ++ [(k, v)]) ++ post := by simp
    rw [e, addMessages_append, lookup_addMessages_of_not_mem k post hk, addMessages_append]
    simp [addMessages, AddMessage, AList.lookup_insert]

/-- C2 on the catalogue of `a -> 1`, `b -> 2`, `a -> 3` loaded over `b -> 0`. -/
theorem parse_catalogue_witness :
    ParseAndLoad (AList.singleton "b".toList "0".toList)
        "msgid \"a\"\nmsgstr \"1\"\n\nmsgid \"b\"\nmsgstr \"2\"\n\nmsgid \"a\"\nmsgstr \"3\"\n\n".toList
      = .returned ((AList.singleton "b".toList "2".toList).insert "a".toList "3".toList) none :=
  (parse_catalogue (AList.singleton "b".toList "0".toList)
    [("a".toList, "1".toList), ("b".toList, "2".toList), ("a".toList, "3".toList)]
    (by decide)).1

/-! ## Keyword lines without a quoted string -/

/-- C3. `ParseAndLoad` panics on a line that begins with `msgid` or `msgstr` and
does not match the keyword pattern: on each of `msgid_plural "x"`,
`msgstr[0] "y"`, `msgid` and `msgid "unterminated` the call stops with the
out-of-range index `[1]` of a nil submatch, and the entry that follows such a
line is not loaded, whereas it is loaded when the line is absent. -/
theorem parse_panics_on_keyword_without_string :
    ParseAndLoad NewDictionary "msgid_plural \"x\"".toList = .panicked NewDictionary ∧
    ParseAndLoad NewDictionary "msgstr[0] \"y\"".toList = .panicked NewDictionary ∧
    ParseAndLoad NewDictionary "msgid".toList = .panicked NewDictionary ∧
    ParseAndLoad NewDictionary "msgid \"unterminated".toList = .panicked NewDictionary ∧
    ParseAndLoad NewDictionary "msgid\nmsgid \"a\"\nmsgstr \"b\"\n\n".toList
      = .panicked NewDictionary ∧
    ParseAndLoad NewDictionary "msgid \"a\"\nmsgstr \"b\"\n\n".toList
      = .returned (AList.singleton "a".toList "b".toList) none :=
  ⟨rfl, rfl, rfl, rfl, rfl, rfl⟩

/-! ## Texts without a blank line -/

theorem scanLine_self_of_not_blank (sc sc' : Scan) (line : Str)
    (hb : ¬ (line.length = 0 ∨ EmptyLineRegExp line = true))
    (h : scanLine sc line = some sc') : sc'.self = sc.self := by
  unfold scanLine at h
  rw [if_neg hb] at h
  split_ifs at h <;> try (split at h)
  all_goals first
    | (cases h; rfl)
    | cases h

theorem scanLines_self_of_not_blank (lines : List Str)
    (hb : ∀ line ∈ lines, ¬ (line.length = 0 ∨ EmptyLineRegExp line = true)) :
    ∀ sc : Scan, scanLines sc lines = .returned sc.self none ∨
      scanLines sc lines = .panicked sc.self := by
  induction lines with
  | nil => intro sc; exact Or.inl rfl
  | cons line lines ih =>
    intro sc
    have h1 := hb line (List.mem_cons_self _ _)
    have h2 : ∀ l ∈ lines, ¬ (l.length = 0 ∨ EmptyLineRegExp l = true) :=
      fun l m => hb l (List.mem_cons_of_mem _ m)
    cases e : scanLine sc line with
    | none => right; simp [scanLines, e]
    | some sc' =>
      have hs := scanLine_self_of_not_blank sc sc' line h1 e
      rw [scanLines_cons _ _ _ _ e, ← hs]
      exact ih h2 sc'

/-- C4. Unterminated entry loss: on a text none of whose lines (split on the
newline character) is empty or whitespace-only, `ParseAndLoad` leaves the
dictionary as it was, whether it returns (with a nil error) or panics; and on
the text `msgid "k"\nmsgstr "v"` with no newline after the closing quote it
returns a nil error and leaves the dictionary as it was. -/
theorem unterminated_entry_loss (D : Dictionary) :
    (∀ text : Str, (∀ line ∈ Split text, line ≠ [] ∧ ¬ (∀ c ∈ line, isSpace c = true)) →
      (ParseAndLoad D text = .returned D none ∨ ParseAndLoad D text = .panicked D)) ∧
    (∀ k v : Str, NoNewline k → NoNewline v →
      ParseAndLoad D (msgidLine k ++ '\n' :: msgstrLine v) = .returned D none) := by
  constructor
  · intro text h
    apply scanLines_self_of_not_blank (Split text) _
      { self := D, lastMsgId := [], lastMsgStr := [], state := STATE_COMPLETE }
    intro line hl hb
    have := h line hl
    rcases hb with hb | hb
    · exact this.1 (List.length_eq_zero.mp hb)
    · exact this.2 (by simpa [EmptyLineRegExp] using hb)
  · intro k v hk hv
    unfold ParseAndLoad
    have hs := Split_of_noNewline (msgstrLine v) (NoNewline_msgstrLine v hv)
    rw [Split_append_newline _ _ (NoNewline_msgidLine k hk), hs,
      scanLines_cons _ _ _ _ (scanLine_msgidLine _ k hk),
      scanLines_cons _ _ _ _ (scanLine_msgstrLine _ v hv)]
    rfl

/-- C4 on the text `msgid "k"\nmsgstr "foo"`, which ends in `msgstr "foo"`. -/
theorem unterminated_entry_loss_witness :
    (ParseAndLoad NewDictionary "msgid \"k\"\nmsgstr \"foo\"".toList
        = .returned NewDictionary none ∨
      ParseAndLoad NewDictionary "msgid \"k\"\nmsgstr \"foo\"".toList
        = .panicked NewDictionary) ∧
    ParseAndLoad NewDictionary "msgid \"k\"\nmsgstr \"foo\"".toList
      = .returned NewDictionary none :=
  ⟨(unterminated_entry_loss NewDictionary).1 "msgid \"k\"\nmsgstr \"foo\"".toList (by decide),
   (unterminated_entry_loss NewDictionary).2 "k".toList "foo".toList (by decide) (by decide)⟩

/-! ## The dictionary store -/

theorem lookup_foldl_AddMessage (k : Str) (l : List (Sigma fun _ : Str => Str))
    (hl : l.NodupKeys) :
    ∀ A : Dictionary,
      (l.foldl (fun d e => AddMessage d e.1 e.2) A).lookup k =
        match l.dlookup k with
        | some v => some v
        | none => A.lookup k := by
  induction l with
  | nil => intro A; rfl
  | cons e l ih =>
    intro A
    rw [List.nodupKeys_cons] at hl
    rw [List.foldl_cons, ih hl.2]
    by_cases hk : e.1 = k
    · subst hk
      have h1 : l.dlookup e.1 = none := List.dlookup_eq_none.mpr hl.1
      have h2 : (e :: l).dlookup e.1 = some e.2 := by
        cases e
        exact List.dlookup_cons_eq _ _ _
      rw [h1, h2]
      simp [AddMessage, AList.lookup_insert]
    · have h2 : (e :: l).dlookup k = l.dlookup k := by
        cases e
        exact List.dlookup_cons_ne _ _ (fun h => hk h.symm)
      rw [h2, AddMessage, AList.lookup_insert_ne (fun h => hk h.symm)]

/-- C5. Merge overwrite law: after `A.Merge(B)` the lookup of a key `k` in `A`
gives `B[k]` when `k` is present in `B`, and otherwise what `A` had for `k`
(its value when present, absent when absent); `B` is left as it was; the keys
of `A` after the merge are those of `A` or `B`. -/
theorem merge_overwrite_law (A B : Dictionary) (k : Str) :
    ((Merge A B).1.lookup k =
      match B.lookup k with
      | some v => some v
      | none => A.lookup k) ∧
    (Merge A B).2 = B ∧
    (k ∈ (Merge A B).1 ↔ k ∈ A ∨ k ∈ B) := by
  have h1 : (Merge A B).1.lookup k =
      match B.lookup k with
      | some v => some v
      | none => A.lookup k := lookup_foldl_AddMessage k B.entries B.nodupKeys A
  refine ⟨h1, rfl, ?_⟩
  rw [← AList.lookup_isSome, h1, ← AList.lookup_isSome, ← AList.lookup_isSome]
  cases B.lookup k <;> simp

/-- C10. `AddMessage` is an unconditional last-write-wins insert: after
`AddMessage(k, v)` the key `k` is present with value `v`, every other key keeps
its presence and its value, and a second `AddMessage` on `k` leaves what it
alone would leave. -/
theorem addMessage_last_write_wins (D : Dictionary) (k v : Str) :
    HasMessage (AddMessage D k v) k = true ∧
    (AddMessage D k v).lookup k = some v ∧
    (∀ k2 : Str, k2 ≠ k →
      HasMessage (AddMessage D k v) k2 = HasMessage D k2 ∧
      (AddMessage D k v).lookup k2 = D.lookup k2) ∧
    (∀ v2 : Str, AddMessage (AddMessage D k v) k v2 = AddMessage D k v2) := by
  refine ⟨?_, ?_, ?_, ?_⟩
  · simp [HasMessage, AddMessage, AList.lookup_insert]
  · simp [AddMessage, AList.lookup_insert]
  · intro k2 h
    simp [HasMessage, AddMessage, AList.lookup_insert_ne h]
  · intro v2
    simp [AddMessage, AList.insert_insert]

/-- C10 on the empty key: `AddMessage("", "2")` after `AddMessage("", "1")` on
`a -> b`, and the other key `a`. -/
theorem addMessage_last_write_wins_witness :
    (HasMessage (AddMessage (AList.singleton "a".toList "b".toList) [] "1".toList) "a".toList
        = HasMessage (AList.singleton "a".toList "b".toList) "a".toList ∧
      (AddMessage (AList.singleton "a".toList "b".toList) [] "1".toList).lookup "a".toList
        = (AList.singleton "a".toList "b".toList : Dictionary).lookup "a".toList) ∧
    AddMessage (AddMessage (AList.singleton "a".toList "b".toList) [] "1".toList) [] "2".toList
      = AddMessage (AList.singleton "a".toList "b".toList) [] "2".toList :=
  ⟨(addMessage_last_write_wins (AList.singleton "a".toList "b".toList) [] "1".toList).2.2.1
      "a".toList (by decide),
   (addMessage_last_write_wins (AList.singleton "a".toList "b".toList) [] "1".toList).2.2.2
      "2".toList⟩

/-! ## The CSV adapters -/

theorem loadItems_eq_addRows (err : Option Error) (rows : List (List Str))
    (h : ∀ r ∈ rows, 2 ≤ r.length) :
    ∀ D : Dictionary, loadItems D err rows = .returned (addRows D rows) err := by
  induction rows with
  | nil => intro D; rfl
  | cons r rows ih =>
    intro D
    have hr := h r (List.mem_cons_self _ _)
    have hrows : ∀ x ∈ rows, 2 ≤ x.length := fun x m => h x (List.mem_cons_of_mem _ m)
    match r, hr with
    | k :: v :: t, _ =>
      simp only [loadItems]
      rw [ih hrows]
      rfl

theorem loadCSV_header_rows (ReadAll : Str → List (List Str) × Option Error)
    (D : Dictionary) (b : Str) (r0 : List Str) (rows : List (List Str))
    (hread : ReadAll b = (r0 :: rows, none)) (hlen : ∀ r ∈ rows, 2 ≤ r.length) :
    LoadCSV ReadAll D b = .returned (addRows D rows) none := by
  unfold LoadCSV
  rw [hread]
  exact loadItems_eq_addRows none rows hlen D

/-- C6. CSV header stripping: when the input decodes to the rows `r0 :: rows`
with a nil error and every row has at least two fields, `LoadCSV` returns a nil
error and leaves the dictionary as `AddMessage(r[0], r[1])` for the rows `r` of
`rows`, in order, does; the first row `r0` has no part in the result. -/
theorem loadCSV_header_stripping (ReadAll : Str → List (List Str) × Option Error)
    (D : Dictionary) (b : Str) (r0 : List Str) (rows : List (List Str))
    (hread : ReadAll b = (r0 :: rows, none)) (hlen : ∀ r ∈ r0 :: rows, 2 ≤ r.length) :
    LoadCSV ReadAll D b = .returned (addRows D rows) none :=
  loadCSV_header_rows ReadAll D b r0 rows hread (fun r m => hlen r (List.mem_cons_of_mem _ m))

/-- C6 on a header row and the data row `a,b`, and on a header row alone, read
by `encoding/csv` into the empty dictionary. -/
theorem loadCSV_header_stripping_witness :
    LoadCSV csv.ReadAll NewDictionary "MessageID,MessageString\na,b\n".toList
      = .returned (AList.singleton "a".toList "b".toList) none ∧
    LoadCSV csv.ReadAll NewDictionary "MessageID,MessageString\n".toList
      = .returned NewDictionary none :=
  ⟨loadCSV_header_stripping csv.ReadAll NewDictionary "MessageID,MessageString\na,b\n".toList
      ["MessageID".toList, "MessageString".toList] [["a".toList, "b".toList]] rfl (by decide),
   loadCSV_header_stripping csv.ReadAll NewDictionary "MessageID,MessageString\n".toList
      ["MessageID".toList, "MessageString".toList] [] rfl (by decide)⟩

/-- C7. `LoadCSV` panics where a decode failure should be returned: whenever
`ReadAll` gives no row (with or without an error) the slice `items[1:]` is out
of range; so it is on the empty input, on an input the reader rejects (a row
with another field count than the first, an unterminated quoted field), and a
one-field row after the first panics at `item[1]`. -/
theorem loadCSV_panics_on_decode_failure :
    (∀ (D : Dictionary) (err : Option Error) (b : Str),
      LoadCSV (fun _ => ([], err)) D b = .panicked D) ∧
    (csv.ReadAll [] = ([], none) ∧
      LoadCSV csv.ReadAll NewDictionary [] = .panicked NewDictionary) ∧
    (csv.ReadAll "a,b\nc\n".toList = ([], some .ErrFieldCount) ∧
      LoadCSV csv.ReadAll NewDictionary "a,b\nc\n".toList = .panicked NewDictionary) ∧
    (csv.ReadAll "a,b\n\"c,d\n".toList = ([], some .ErrQuote) ∧
      LoadCSV csv.ReadAll NewDictionary "a,b\n\"c,d\n".toList = .panicked NewDictionary) ∧
    (csv.ReadAll "h\nx\n".toList = ([["h".toList], ["x".toList]], none) ∧
      LoadCSV csv.ReadAll NewDictionary "h\nx\n".toList = .panicked NewDictionary) :=
  ⟨fun _ _ _ => rfl, ⟨rfl, rfl⟩, ⟨rfl, rfl⟩, ⟨rfl, rfl⟩, ⟨rfl, rfl⟩⟩

/-- C9. CSV encode shape: the rows `CSVString` writes are the header row
`["MessageID", "MessageString"]` and then, each exactly once, the two-field rows
`[k, v]` with `v` the value of the key `k`, so one more row than the dictionary
has keys; the text is what the writer emits for these rows, in this order. -/
theorem csvString_shape (D : Dictionary) :
    (CSVRows D).head? = some ["MessageID".toList, "MessageString".toList] ∧
    (CSVRows D).length = D.keys.length + 1 ∧
    (∀ r ∈ (CSVRows D).tail, ∃ k v, r = [k, v] ∧ D.lookup k = some v) ∧
    (∀ k v, D.lookup k = some v → [k, v] ∈ (CSVRows D).tail) ∧
    (CSVRows D).tail.Nodup ∧
    (∀ Write : List Str → Str, CSVString Write D = ((CSVRows D).map Write).flatten) := by
  refine ⟨rfl, ?_, ?_, ?_, ?_, fun _ => rfl⟩
  · simp [CSVRows, AList.keys, List.keys]
  · intro r hr
    simp only [CSVRows, List.tail_cons, List.mem_map] at hr
    obtain ⟨e, he, rfl⟩ := hr
    refine ⟨e.1, e.2, rfl, ?_⟩
    exact Option.mem_def.mp (AList.mem_lookup_iff.mpr he)
  · intro k v h
    simp only [CSVRows, List.tail_cons, List.mem_map]
    exact ⟨⟨k, v⟩, AList.mem_lookup_iff.mp (Option.mem_def.mpr h), rfl⟩
  · simp only [CSVRows, List.tail_cons]
    refine List.Nodup.map ?_ (List.NodupKeys.nodup D.nodupKeys)
    intro e1 e2 h
    cases e1; cases e2
    simp at h
    simp [h.1, h.2]

/-! ## The writer's text read back by the reader -/

namespace csv

theorem NoCRLF_tail (c : Char) (s : Str) (h : NoCRLF (c :: s)) : NoCRLF s :=
  fun hs => h (List.infix_cons hs)

theorem NoCRLF_head (s : Str) (h : NoCRLF ('\r' :: s)) : s.head? ≠ some '\n' := by
  intro e
  cases s with
  | nil => simp at e
  | cons d s =>
    simp at e
    subst e
    exact h ⟨[], s, rfl⟩

theorem normalize_cons (c : Char) (s : Str) (h : c ≠ '\r') :
    normalize (c :: s) = c :: normalize s := by
  simp [normalize, h]

theorem normalize_cr_cons (d : Char) (s : Str) (h : d ≠ '\n') :
    normalize ('\r' :: d :: s) = '\r' :: normalize (d :: s) := by
  simp [normalize, h]

theorem normalize_append_of_no_cr (s t : Str) (h : ∀ c ∈ s, c ≠ '\r') :
    normalize (s ++ t) = s ++ normalize t := by
  induction s with
  | nil => rfl
  | cons c s ih =>
    have hc := h c (List.mem_cons_self _ _)
    have hs : ∀ x ∈ s, x ≠ '\r' := fun x m => h x (List.mem_cons_of_mem _ m)
    rw [List.cons_append, normalize_cons _ _ hc, ih hs]
    rfl

theorem normalize_quoteBody (t : Str) :
    ∀ f : Str, NoCRLF f →
      normalize (quoteBody f ++ '"' :: t) = quoteBody f ++ '"' :: normalize t := by
  intro f
  induction f with
  | nil => intro _; simp [quoteBody, normalize]
  | cons c f ih =>
    intro h
    have hf := NoCRLF_tail c f h
    by_cases hq : c = '"'
    · subst hq
      simp only [quoteBody, if_true, List.cons_append]
      rw [normalize_cons _ _ (by decide), normalize_cons _ _ (by decide), ih hf]
    · simp only [quoteBody, if_neg hq, List.cons_append]
      by_cases hr : c = '\r'
      · subst hr
        have hh := NoCRLF_head f h
        cases f with
        | nil =>
          simp only [quoteBody, List.nil_append]
          rw [normalize_cr_cons _ _ (by decide), normalize_cons _ _ (by decide)]
        | cons d f =>
          have hd : d ≠ '\n' := by simpa using hh
          have step : ∀ u : Str, normalize ('\r' :: (quoteBody (d :: f) ++ u))
              = '\r' :: normalize (quoteBody (d :: f) ++ u) := by
            intro u
            by_cases hdq : d = '"'
            · subst hdq
              simp only [quoteBody, if_true, List.cons_append]
              exact normalize_cr_cons _ _ (by decide)
            · simp only [quoteBody, if_neg hdq, List.cons_append]
              exact normalize_cr_cons _ _ hd
          rw [step, ih hf]
      · rw [normalize_cons _ _ hr, ih hf]

theorem not_special_of_not_fieldNeedsQuotes (f : Str) (h : fieldNeedsQuotes f = false) :
    ∀ c ∈ f, c ≠ '\n' ∧ c ≠ '\r' ∧ c ≠ '"' ∧ c ≠ ',' := by
  intro c hc
  unfold fieldNeedsQuotes at h
  have hne : f ≠ [] := List.ne_nil_of_mem hc
  rw [if_neg hne] at h
  split_ifs at h with h1 h2
  have h3 : ¬ (c == '\n' || c == '\r' || c == '"' || c == ',') = true := by
    intro e
    exact h2 (List.any_eq_true.mpr ⟨c, hc, e⟩)
  simp only [Bool.or_eq_true, beq_iff_eq, not_or] at h3
  exact ⟨h3.1.1.1, h3.1.1.2, h3.1.2, h3.2⟩

theorem normalize_writeField (f : Str) (hf : NoCRLF f) (c : Char) (hc : c ≠ '\r') (t : Str) :
    normalize (writeField f ++ c :: t) = writeField f ++ c :: normalize t := by
  unfold writeField
  by_cases hq : fieldNeedsQuotes f = true
  · rw [if_pos hq]
    have e : '"' :: (quoteBody f ++ ['"']) ++ c :: t = '"' :: (quoteBody f ++ '"' :: (c :: t)) := by
      simp
    rw [e, normalize_cons _ _ (by decide), normalize_quoteBody _ f hf, normalize_cons _ _ hc]
    simp
  · rw [if_neg hq]
    have hs := not_special_of_not_fieldNeedsQuotes f (by simpa using hq)
    rw [normalize_append_of_no_cr f _ (fun x m => (hs x m).2.1), normalize_cons _ _ hc]

theorem Write_pair (k v : Str) :
    Write [k, v] = writeField k ++ ',' :: (writeField v ++ ['\n']) := by
  simp [Write, writeFields]

theorem normalize_Write_pair (k v : Str) (hk : NoCRLF k) (hv : NoCRLF v) (t : Str) :
    normalize (Write [k, v] ++ t) = Write [k, v] ++ normalize t := by
  have e : Write [k, v] ++ t = writeField k ++ ',' :: (writeField v ++ '\n' :: t) := by
    simp [Write_pair]
  rw [e, normalize_writeField k hk _ (by decide), normalize_writeField v hv _ (by decide)]
  simp [Write_pair]

theorem run_inField (rest : Str) (m : List Str) (recs : List (List Str)) (n : Nat) :
    ∀ (f : Str), (∀ c ∈ f, c ≠ '\n' ∧ c ≠ '\r' ∧ c ≠ '"' ∧ c ≠ ',') → ∀ (cur : Str),
      run { mode := .inField, field := cur, record := m, records := recs,
            FieldsPerRecord := n } (f ++ rest)
        = run { mode := .inField, field := cur ++ f, record := m, records := recs,
                FieldsPerRecord := n } rest := by
  intro f
  induction f with
  | nil => intro _ cur; simp
  | cons c f ih =>
    intro hf cur
    have hc := hf c (List.mem_cons_self _ _)
    have hr : ∀ x ∈ f, x ≠ '\n' ∧ x ≠ '\r' ∧ x ≠ '"' ∧ x ≠ ',' :=
      fun x hx => hf x (List.mem_cons_of_mem _ hx)
    have e : run { mode := .inField, field := cur, record := m, records := recs,
                   FieldsPerRecord := n } (c :: f ++ rest)
        = run { mode := .inField, field := cur ++ [c], record := m, records := recs,
                FieldsPerRecord := n } (f ++ rest) := by
      simp [run, step, hc.1, hc.2.2.1, hc.2.2.2]
    rw [e, ih hr]
    simp

theorem run_inQuoted (rest : Str) (m : List Str) (recs : List (List Str)) (n : Nat) :
    ∀ (f cur : Str),
      run { mode := .inQuoted, field := cur, record := m, records := recs,
            FieldsPerRecord := n } (quoteBody f ++ rest)
        = run { mode := .inQuoted, field := cur ++ f, record := m, records := recs,
                FieldsPerRecord := n } rest := by
  intro f
  induction f with
  | nil => intro cur; simp [quoteBody]
  | cons c f ih =>
    intro cur
    have e : run { mode := .inQuoted, field := cur, record := m, records := recs,
                   FieldsPerRecord := n } (quoteBody (c :: f) ++ rest)
        = run { mode := .inQuoted, field := cur ++ [c], record := m, records := recs,
                FieldsPerRecord := n } (quoteBody f ++ rest) := by
      by_cases hq : c = '"'
      · subst hq
        simp [quoteBody, run, step]
      · simp [quoteBody, run, step, hq]
    rw [e, ih]
    simp

/-- The reader at the start of a field, on a written field and a comma: the
field is read back and the reader stands at the start of the next field. -/
theorem run_writeField_comma (f rest : Str) (md : Mode)
    (hmd : md = .fieldStart ∨ md = .lineStart)
    (cur : Str) (m : List Str) (recs : List (List Str)) (n : Nat) :
    run { mode := md, field := cur, record := m, records := recs, FieldsPerRecord := n }
        (writeField f ++ ',' :: rest)
      = run { mode := .fieldStart, field := [], record := m ++ [f], records := recs,
              FieldsPerRecord := n } rest := by
  unfold writeField
  by_cases hq : fieldNeedsQuotes f = true
  · rw [if_pos hq]
    have e1 : run { mode := md, field := cur, record := m, records := recs,
                    FieldsPerRecord := n } ('"' :: (quoteBody f ++ ['"']) ++ ',' :: rest)
        = run { mode := .inQuoted, field := [], record := m, records := recs,
                FieldsPerRecord := n } (quoteBody f ++ ('"' :: ',' :: rest)) := by
      rcases hmd with h | h <;> subst h <;> simp [run, step, beginField]
    rw [e1, run_inQuoted]
    simp [run, step]
  · rw [if_neg hq]
    have hs := not_special_of_not_fieldNeedsQuotes f (by simpa using hq)
    cases f with
    | nil => rcases hmd with h | h <;> subst h <;> simp [run, step, beginField]
    | cons c f =>
      have hc := hs c (List.mem_cons_self _ _)
      have hr : ∀ x ∈ f, x ≠ '\n' ∧ x ≠ '\r' ∧ x ≠ '"' ∧ x ≠ ',' :=
        fun x hx => hs x (List.mem_cons_of_mem _ hx)
      have e1 : run { mode := md, field := cur, record := m, records := recs,
                      FieldsPerRecord := n } (c :: f ++ ',' :: rest)
          = run { mode := .inField, field := [c], record := m, records := recs,
                  FieldsPerRecord := n } (f ++ ',' :: rest) := by
        rcases hmd with h | h <;> subst h <;>
          simp [run, step, beginField, hc.1, hc.2.2.1, hc.2.2.2]
      rw [e1, run_inField _ _ _ _ f hr]
      simp [run, step]

/-- The reader at the start of a field after a comma, on a written field and a
newline: the field is read back and the record ends. -/
theorem run_writeField_newline (f rest : Str)
    (cur : Str) (m : List Str) (recs : List (List Str)) (n : Nat)
    (hn : n = 0 ∨ n = (m ++ [f]).length) :
    run { mode := .fieldStart, field := cur, record := m, records := recs,
          FieldsPerRecord := n } (writeField f ++ '\n' :: rest)
      = run { mode := .lineStart, field := [], record := [], records := recs ++ [m ++ [f]],
              FieldsPerRecord := (m ++ [f]).length } rest := by
  have hend : ∀ (md : Mode) (fld : Str),
      endRecord { mode := md, field := fld, record := m, records := recs,
                  FieldsPerRecord := n } (m ++ [f])
        = .ok { mode := .lineStart, field := [], record := [], records := recs ++ [m ++ [f]],
                FieldsPerRecord := (m ++ [f]).length } := by
    intro md fld
    rcases hn with h | h
    · subst h; simp [endRecord]
    · have h0 : n ≠ 0 := by rw [h]; simp
      simp only [endRecord, if_neg h0]
      rw [if_neg (by simp [h])]
      simp [h]
  unfold writeField
  by_cases hq : fieldNeedsQuotes f = true
  · rw [if_pos hq]
    have e1 : run { mode := .fieldStart, field := cur, record := m, records := recs,
                    FieldsPerRecord := n } ('"' :: (quoteBody f ++ ['"']) ++ '\n' :: rest)
        = run { mode := .inQuoted, field := [], record := m, records := recs,
                FieldsPerRecord := n } (quoteBody f ++ ('"' :: '\n' :: rest)) := by
      simp [run, step, beginField]
    rw [e1, run_inQuoted]
    simp [run, step, hend]
  · rw [if_neg hq]
    have hs := not_special_of_not_fieldNeedsQuotes f (by simpa using hq)
    cases f with
    | nil =>
      simp [run, step, hend]
    | cons c f =>
      have hc := hs c (List.mem_cons_self _ _)
      have hr : ∀ x ∈ f, x ≠ '\n' ∧ x ≠ '\r' ∧ x ≠ '"' ∧ x ≠ ',' :=
        fun x hx => hs x (List.mem_cons_of_mem _ hx)
      have e1 : run { mode := .fieldStart, field := cur, record := m, records := recs,
                      FieldsPerRecord := n } (c :: f ++ '\n' :: rest)
          = run { mode := .inField, field := [c], record := m, records := recs,
                  FieldsPerRecord := n } (f ++ '\n' :: rest) := by
        simp [run, step, beginField, hc.1, hc.2.2.1, hc.2.2.2]
      rw [e1, run_inField _ _ _ _ f hr]
      simp [run, step, hend]

/-- The reader at the start of a line, on a written two-field record: the
record is read back. -/
theorem run_Write_pair (k v rest : Str) (recs : List (List Str)) (n : Nat)
    (hn : n = 0 ∨ n = 2) :
    run { mode := .lineStart, field := [], record := [], records := recs,
          FieldsPerRecord := n } (Write [k, v] ++ rest)
      = run { mode := .lineStart, field := [], record := [], records := recs ++ [[k, v]],
              FieldsPerRecord := 2 } rest := by
  have e : Write [k, v] ++ rest = writeField k ++ ',' :: (writeField v ++ '\n' :: rest) := by
    simp [Write_pair]
  rw [e, run_writeField_comma k _ .lineStart (Or.inr rfl),
    run_writeField_newline v rest [] ([] ++ [k]) recs n (by simpa using hn)]
  rfl

theorem run_Write_rows (rows : List (List Str)) (hrows : ∀ r ∈ rows, ∃ k v, r = [k, v]) :
    ∀ (recs : List (List Str)) (n : Nat), n = 0 ∨ n = 2 →
      run { mode := .lineStart, field := [], record := [], records := recs,
            FieldsPerRecord := n } ((rows.map Write).flatten)
        = .ok (recs ++ rows) := by
  induction rows with
  | nil => intro recs n _; simp [run, finish]
  | cons r rows ih =>
    intro recs n hn
    obtain ⟨k, v, rfl⟩ := hrows r (List.mem_cons_self _ _)
    have hr : ∀ x ∈ rows, ∃ k v, x = [k, v] := fun x hx => hrows x (List.mem_cons_of_mem _ hx)
    rw [List.map_cons, List.flatten_cons, run_Write_pair k v _ recs n hn,
      ih hr _ 2 (Or.inr rfl)]
    simp

theorem normalize_Write_rows (rows : List (List Str))
    (hrows : ∀ r ∈ rows, ∃ k v, r = [k, v] ∧ NoCRLF k ∧ NoCRLF v) :
    normalize ((rows.map Write).flatten) = (rows.map Write).flatten := by
  induction rows with
  | nil => rfl
  | cons r rows ih =>
    obtain ⟨k, v, rfl, hk, hv⟩ := hrows r (List.mem_cons_self _ _)
    have hr : ∀ x ∈ rows, ∃ k v, x = [k, v] ∧ NoCRLF k ∧ NoCRLF v :=
      fun x hx => hrows x (List.mem_cons_of_mem _ hx)
    rw [List.map_cons, List.flatten_cons, normalize_Write_pair k v hk hv, ih hr]

/-- The reader gives back the two-field rows the writer was given, when no field
has a carriage return right before a newline. -/
theorem ReadAll_Write_rows (rows : List (List Str))
    (hrows : ∀ r ∈ rows, ∃ k v, r = [k, v] ∧ NoCRLF k ∧ NoCRLF v) :
    ReadAll ((rows.map Write).flatten) = (rows, none) := by
  unfold ReadAll
  rw [normalize_Write_rows rows hrows,
    run_Write_rows rows (fun r hr => by
      obtain ⟨k, v, e, _⟩ := hrows r hr
      exact ⟨k, v, e⟩) [] 0 (Or.inl rfl)]
  rfl

end csv

theorem addRows_entries (l : List (Sigma fun _ : Str => Str)) :
    ∀ A : Dictionary, addRows A (l.map (fun e => [e.1, e.2]))
      = l.foldl (fun d e => AddMessage d e.1 e.2) A := by
  induction l with
  | nil => intro A; rfl
  | cons e l ih =>
    intro A
    simp only [List.map_cons, List.foldl_cons]
    rw [← ih]
    rfl

/-- C8, amended. CSV round trip: for every dictionary with no empty key in which
no key and no value has a carriage return immediately followed by a newline,
`LoadCSVString` applied to an empty dictionary and the text of `CSVString`
returns a nil error and yields a dictionary with the same key to value pairs,
whatever the order of the rows and whatever else the keys and values contain. -/
theorem csv_round_trip (D : Dictionary) (_hkey : ∀ e ∈ D.entries, e.1 ≠ [])
    (h : ∀ e ∈ D.entries, NoCRLF e.1 ∧ NoCRLF e.2) :
    ∃ D2 : Dictionary,
      LoadCSVString csv.ReadAll NewDictionary (CSVString csv.Write D) = .returned D2 none ∧
      D2.entries.Perm D.entries ∧ ∀ k, D2.lookup k = D.lookup k := by
  have hrows : ∀ r ∈ CSVRows D, ∃ k v, r = [k, v] ∧ NoCRLF k ∧ NoCRLF v := by
    intro r hr
    simp only [CSVRows, List.mem_cons, List.mem_map] at hr
    rcases hr with rfl | ⟨e, he, rfl⟩
    · exact ⟨_, _, rfl, by decide, by decide⟩
    · exact ⟨e.1, e.2, rfl, h e he⟩
  have hread := csv.ReadAll_Write_rows (CSVRows D) hrows
  have hload : LoadCSVString csv.ReadAll NewDictionary (CSVString csv.Write D)
      = .returned (D.entries.foldl (fun d e => AddMessage d e.1 e.2) NewDictionary) none := by
    unfold LoadCSVString CSVString
    rw [loadCSV_header_rows csv.ReadAll NewDictionary _ _ _ hread, addRows_entries]
    intro r hr
    obtain ⟨k, v, e, _⟩ := hrows r (List.mem_cons_of_mem _ hr)
    simp [e]
  have hlook : ∀ k, (D.entries.foldl (fun d e => AddMessage d e.1 e.2) NewDictionary).lookup k
      = D.lookup k := by
    intro k
    rw [lookup_foldl_AddMessage k D.entries D.nodupKeys]
    show (match D.lookup k with
      | some v => some v
      | none => AList.lookup k (∅ : Dictionary)) = D.lookup k
    cases D.lookup k <;> simp
  refine ⟨_, hload, ?_, hlook⟩
  apply List.lookup_ext (AList.nodupKeys _) D.nodupKeys
  intro x y
  have := hlook x
  unfold AList.lookup at this
  rw [this]

/-- C8, amended, on `sampleDictionary`. -/
theorem csv_round_trip_witness :
    ∃ D2 : Dictionary,
      LoadCSVString csv.ReadAll NewDictionary (CSVString csv.Write sampleDictionary)
        = .returned D2 none ∧
      D2.entries.Perm sampleDictionary.entries ∧
      ∀ k, D2.lookup k = sampleDictionary.lookup k :=
  csv_round_trip sampleDictionary (by decide) (by decide)

/-- C8 as stated fails: the dictionary with the single entry `k -> a\r\nb` has
no empty key, and its CSV text loads back as `k -> a\nb`. -/
theorem csv_round_trip_fails_on_crlf :
    ¬ ∀ D : Dictionary, (∀ e ∈ D.entries, e.1 ≠ []) →
      ∃ D2 : Dictionary,
        LoadCSVString csv.ReadAll NewDictionary (CSVString csv.Write D) = .returned D2 none ∧
        ∀ k, D2.lookup k = D.lookup k := by
  intro hall
  obtain ⟨D2, h1, h2⟩ := hall (AList.singleton "k".toList "a\r\nb".toList) (by decide)
  have e : LoadCSVString csv.ReadAll NewDictionary
      (CSVString csv.Write (AList.singleton "k".toList "a\r\nb".toList))
      = .returned (AList.singleton "k".toList "a\nb".toList) none := rfl
  rw [e] at h1
  injection h1 with h1 _
  subst h1
  exact absurd (h2 "k".toList) (by decide)

/-! ## Removal -/

/-- C11. Removal: after `RemoveMessage(x)` the key `x` is absent and every other
key keeps its presence and its value; when `x` was absent the dictionary is
unchanged; and `AddMessage(x, y)` followed by `RemoveMessage(x)` leaves `x`
absent, for every `y`. -/
theorem removeMessage_law (D : Dictionary) (x : Str) :
    HasMessage (RemoveMessage D x) x = false ∧
    (∀ k : Str, k ≠ x →
      HasMessage (RemoveMessage D x) k = HasMessage D k ∧
      (RemoveMessage D x).lookup k = D.lookup k) ∧
    (HasMessage D x = false → RemoveMessage D x = D) ∧
    (∀ y : Str, HasMessage (RemoveMessage (AddMessage D x y) x) x = false) := by
  refine ⟨?_, ?_, ?_, ?_⟩
  · simp [HasMessage, RemoveMessage, AList.lookup_erase]
  · intro k h
    simp [HasMessage, RemoveMessage, AList.lookup_erase_ne h]
  · intro h
    have hx : x ∉ D.entries.keys := by
      have h2 : D.lookup x = none := by
        simpa [HasMessage] using h
      exact AList.lookup_eq_none.mp h2
    apply AList.ext
    exact List.kerase_of_not_mem_keys hx
  · intro y
    simp [HasMessage, RemoveMessage, AList.lookup_erase]

/-- C11 on `AddMessage("x", "y")` then `RemoveMessage("x")`, on the other key
`a`, and on the removal of the absent key `x`. -/
theorem removeMessage_law_witness :
    HasMessage (RemoveMessage (AddMessage NewDictionary "x".toList "y".toList) "x".toList)
        "x".toList = false ∧
    (HasMessage (RemoveMessage (AList.singleton "a".toList "b".toList) "x".toList) "a".toList
        = HasMessage (AList.singleton "a".toList "b".toList) "a".toList ∧
      (RemoveMessage (AList.singleton "a".toList "b".toList) "x".toList).lookup "a".toList
        = (AList.singleton "a".toList "b".toList : Dictionary).lookup "a".toList) ∧
    RemoveMessage (AList.singleton "a".toList "b".toList) "x".toList
      = AList.singleton "a".toList "b".toList :=
  ⟨(removeMessage_law NewDictionary "x".toList).2.2.2 "y".toList,
   (removeMessage_law (AList.singleton "a".toList "b".toList) "x".toList).2.1 "a".toList
      (by decide),
   (removeMessage_law (AList.singleton "a".toList "b".toList) "x".toList).2.2.1 (by decide)⟩

/-! ## Blank lines, comment lines and continuation lines -/

theorem dropWhile_isSpace_of_all (line : Str) (h : ∀ c ∈ line, isSpace c = true) :
    line.dropWhile isSpace = [] := by
  induction line with
  | nil => rfl
  | cons c line ih =>
    have hc := h c (List.mem_cons_self _ _)
    have hl : ∀ x ∈ line, isSpace x = true := fun x m => h x (List.mem_cons_of_mem _ m)
    simp [List.dropWhile, hc, ih hl]

theorem scanLine_blank (sc : Scan) (line : Str)
    (hb : line = [] ∨ ∀ c ∈ line, isSpace c = true) :
    scanLine sc line =
      if sc.state = STATE_MSGSTR then
        some { self := AddMessage sc.self (Join sc.lastMsgId) (Join sc.lastMsgStr),
               lastMsgId := [], lastMsgStr := [], state := STATE_COMPLETE }
      else some sc := by
  have h : line.length = 0 ∨ EmptyLineRegExp line = true := by
    rcases hb with hb | hb
    · left; simp [hb]
    · right; simpa [EmptyLineRegExp] using hb
  unfold scanLine
  rw [if_pos h]

theorem not_blank_of_comment (line : Str) (h : (line.dropWhile isSpace).head? = some '#') :
    ¬ (line.length = 0 ∨ EmptyLineRegExp line = true) := by
  intro hb
  rcases hb with hb | hb
  · have : line = [] := List.length_eq_zero.mp hb
    subst this
    simp at h
  · have := dropWhile_isSpace_of_all line (by simpa [EmptyLineRegExp] using hb)
    rw [this] at h
    simp at h

theorem CommentRegExp_iff (line : Str) :
    CommentRegExp line = true ↔ (line.dropWhile isSpace).head? = some '#' := by
  unfold CommentRegExp
  cases line.dropWhile isSpace with
  | nil => simp
  | cons c t => simp

theorem head_comment (line : Str) (h : line.head? = some '#') :
    (line.dropWhile isSpace).head? = some '#' := by
  cases line with
  | nil => simp at h
  | cons c t =>
    simp at h
    subst h
    simp [List.dropWhile, isSpace]

theorem scanLine_comment (sc : Scan) (line : Str)
    (h : (line.dropWhile isSpace).head? = some '#') :
    scanLine sc line = some { sc with state := STATE_COMMENT } := by
  unfold scanLine
  rw [if_neg (not_blank_of_comment line h), if_pos (Or.inr ((CommentRegExp_iff line).mpr h))]

theorem scanLine_commentLine (sc : Scan) (c : Str) :
    scanLine sc (commentLine c) = some { sc with state := STATE_COMMENT } :=
  scanLine_comment sc (commentLine c) (by simp [commentLine, List.dropWhile, isSpace])

theorem NoNewline_commentLine (c : Str) (hc : NoNewline c) : NoNewline (commentLine c) := by
  unfold NoNewline at *
  simp [commentLine, hc]

theorem keywordRegExp_of_not_prefix (kw line : Str) (h : HasPrefix line kw = false) :
    keywordRegExp kw line = none := by
  simp [keywordRegExp, h]

theorem scanLine_continuation (sc : Scan) (line g : Str)
    (hnb : ¬ (line = [] ∨ ∀ c ∈ line, isSpace c = true))
    (hnc : (line.dropWhile isSpace).head? ≠ some '#')
    (h1 : HasPrefix line "msgid".toList = false) (h2 : HasPrefix line "msgstr".toList = false)
    (hs : StringRegExp line = some g) :
    scanLine sc line =
      some (if sc.state = STATE_MSGID then { sc with lastMsgId := sc.lastMsgId ++ [g] }
            else if sc.state = STATE_MSGSTR then { sc with lastMsgStr := sc.lastMsgStr ++ [g] }
            else sc) := by
  have c1 : ¬ (line.length = 0 ∨ EmptyLineRegExp line = true) := by
    intro hb
    apply hnb
    rcases hb with hb | hb
    · left; exact List.length_eq_zero.mp hb
    · right; simpa [EmptyLineRegExp] using hb
  have c2 : ¬ (line.head? = some '#' ∨ CommentRegExp line = true) := by
    intro hc
    rcases hc with hc | hc
    · exact hnc (head_comment line hc)
    · exact hnc ((CommentRegExp_iff line).mp hc)
  have c3 : ¬ (HasPrefix line "msgid".toList = true ∨ (MsgIdRegExp line).isSome = true) := by
    rw [h1, MsgIdRegExp, keywordRegExp_of_not_prefix _ _ h1]
    simp
  have c4 : ¬ (HasPrefix line "msgstr".toList = true ∨ (MsgStrRegExp line).isSome = true) := by
    rw [h2, MsgStrRegExp, keywordRegExp_of_not_prefix _ _ h2]
    simp
  unfold scanLine
  rw [if_neg c1, if_neg c2, if_neg c3, if_neg c4, hs]
  split_ifs <;> rfl

theorem scanLines_nil (sc : Scan) : scanLines sc [] = .returned sc.self none := rfl

theorem scanLine_nil_complete (sc : Scan) (h : sc.state = STATE_COMPLETE) :
    scanLine sc [] = some sc :=
  scanLine_blank_other sc (by rw [h]; decide)

theorem scanLine_nil_comment (sc : Scan) (h : sc.state = STATE_COMMENT) :
    scanLine sc [] = some sc :=
  scanLine_blank_other sc (by rw [h]; decide)

theorem scanLine_nil_msgid (sc : Scan) (h : sc.state = STATE_MSGID) :
    scanLine sc [] = some sc :=
  scanLine_blank_other sc (by rw [h]; decide)

theorem scanLine_quotedLine_ignored (sc : Scan) (s : Str) (hs : NoNewline s)
    (h : sc.state = STATE_COMPLETE ∨ sc.state = STATE_COMMENT) :
    scanLine sc (quotedLine s) = some sc := by
  rw [scanLine_quotedLine sc s hs]
  rcases h with h | h <;> simp [h]

/-! ## Entries that are not closed by a blank line -/

/-- C13. A new msgid does not clear pending fragments: for `k1`, `v1`, `k2`,
`v2` without newline, the text `msgid "k1"\nmsgstr "v1"\nmsgid "k2"\nmsgstr
"v2"\n\n` parses into the empty dictionary as the single entry `k1 ++ k2` to
`v1 ++ v2`; no other key is present. -/
theorem new_msgid_keeps_fragments (k1 v1 k2 v2 : Str)
    (h1 : NoNewline k1) (h2 : NoNewline v1) (h3 : NoNewline k2) (h4 : NoNewline v2) :
    ParseAndLoad NewDictionary
        (unlines [msgidLine k1, msgstrLine v1, msgidLine k2, msgstrLine v2, []])
      = .returned (AList.singleton (k1 ++ k2) (v1 ++ v2)) none ∧
    ∀ k : Str, k ≠ k1 ++ k2 →
      HasMessage (ParseAndLoad NewDictionary
        (unlines [msgidLine k1, msgstrLine v1, msgidLine k2, msgstrLine v2, []])).dict k
        = false := by
  have hl : ∀ l ∈ [msgidLine k1, msgstrLine v1, msgidLine k2, msgstrLine v2, []],
      NoNewline l := by
    simp [NoNewline_msgidLine, NoNewline_msgstrLine, NoNewline_nil, h1, h2, h3, h4]
  have e : ParseAndLoad NewDictionary
        (unlines [msgidLine k1, msgstrLine v1, msgidLine k2, msgstrLine v2, []])
      = .returned (AList.singleton (k1 ++ k2) (v1 ++ v2)) none := by
    unfold ParseAndLoad
    rw [Split_unlines _ hl]
    simp only [List.cons_append, List.nil_append]
    rw [scanLines_cons _ _ _ _ (scanLine_msgidLine _ k1 h1),
      scanLines_cons _ _ _ _ (scanLine_msgstrLine _ v1 h2),
      scanLines_cons _ _ _ _ (scanLine_msgidLine _ k2 h3),
      scanLines_cons _ _ _ _ (scanLine_msgstrLine _ v2 h4),
      scanLines_cons _ _ _ _ (scanLine_blank_msgstr _ rfl),
      scanLines_cons _ _ _ _ (scanLine_nil_complete _ rfl), scanLines_nil]
    simp [Join, AddMessage, NewDictionary, AList.insert_empty]
  refine ⟨e, ?_⟩
  intro k hk
  rw [e]
  simp [Outcome.dict, HasMessage, AList.lookup, AList.singleton, List.dlookup, hk.symm]

/-- C13 on `msgid "a"`, `msgstr "1"`, `msgid "b"`, `msgstr "2"`, blank. -/
theorem new_msgid_keeps_fragments_witness :
    ParseAndLoad NewDictionary "msgid \"a\"\nmsgstr \"1\"\nmsgid \"b\"\nmsgstr \"2\"\n\n".toList
      = .returned (AList.singleton "ab".toList "12".toList) none ∧
    HasMessage (ParseAndLoad NewDictionary
      "msgid \"a\"\nmsgstr \"1\"\nmsgid \"b\"\nmsgstr \"2\"\n\n".toList).dict "a".toList = false :=
  ⟨(new_msgid_keeps_fragments "a".toList "1".toList "b".toList "2".toList
      (by decide) (by decide) (by decide) (by decide)).1,
   (new_msgid_keeps_fragments "a".toList "1".toList "b".toList "2".toList
      (by decide) (by decide) (by decide) (by decide)).2 "a".toList (by decide)⟩

/-- C14. A blank line outside `STATE_MSGSTR` is a no-op: in the states
`STATE_COMPLETE`, `STATE_COMMENT` and `STATE_MSGID` an empty or whitespace-only
line leaves the dictionary, the pending fragments and the state as they are;
and for `k1`, `k2`, `v` without newline the text `msgid "k1"\n\nmsgid
"k2"\nmsgstr "v"\n\n` parses into the empty dictionary as the single entry
`k1 ++ k2` to `v`. -/
theorem blank_line_noop_outside_msgstr :
    (∀ (sc : Scan) (line : Str), (line = [] ∨ ∀ c ∈ line, isSpace c = true) →
      (sc.state = STATE_COMPLETE ∨ sc.state = STATE_COMMENT ∨ sc.state = STATE_MSGID) →
      scanLine sc line = some sc) ∧
    (∀ k1 k2 v : Str, NoNewline k1 → NoNewline k2 → NoNewline v →
      ParseAndLoad NewDictionary (unlines [msgidLine k1, [], msgidLine k2, msgstrLine v, []])
        = .returned (AList.singleton (k1 ++ k2) v) none) := by
  constructor
  · intro sc line hb hst
    rw [scanLine_blank sc line hb]
    have hne : sc.state ≠ STATE_MSGSTR := by
      rcases hst with h | h | h <;> rw [h] <;> decide
    rw [if_neg hne]
  · intro k1 k2 v h1 h2 h3
    have hl : ∀ l ∈ [msgidLine k1, [], msgidLine k2, msgstrLine v, []], NoNewline l := by
      simp [NoNewline_msgidLine, NoNewline_msgstrLine, NoNewline_nil, h1, h2, h3]
    unfold ParseAndLoad
    rw [Split_unlines _ hl]
    simp only [List.cons_append, List.nil_append]
    rw [scanLines_cons _ _ _ _ (scanLine_msgidLine _ k1 h1),
      scanLines_cons _ _ _ _ (scanLine_nil_msgid _ rfl),
      scanLines_cons _ _ _ _ (scanLine_msgidLine _ k2 h2),
      scanLines_cons _ _ _ _ (scanLine_msgstrLine _ v h3),
      scanLines_cons _ _ _ _ (scanLine_blank_msgstr _ rfl),
      scanLines_cons _ _ _ _ (scanLine_nil_complete _ rfl), scanLines_nil]
    simp [Join, AddMessage, NewDictionary, AList.insert_empty]

/-- C14 on a line of a space and a tab read in `STATE_MSGID` with the pending key
fragment `k`, and on the text `msgid "a"\n\nmsgid "b"\nmsgstr "1"\n\n`. -/
theorem blank_line_noop_outside_msgstr_witness :
    scanLine { self := NewDictionary, lastMsgId := ["k".toList], lastMsgStr := [],
               state := STATE_MSGID } " \t".toList
      = some { self := NewDictionary, lastMsgId := ["k".toList], lastMsgStr := [],
               state := STATE_MSGID } ∧
    ParseAndLoad NewDictionary "msgid \"a\"\n\nmsgid \"b\"\nmsgstr \"1\"\n\n".toList
      = .returned (AList.singleton "ab".toList "1".toList) none :=
  ⟨blank_line_noop_outside_msgstr.1 _ " \t".toList (by decide) (Or.inr (Or.inr rfl)),
   blank_line_noop_outside_msgstr.2 "a".toList "b".toList "1".toList
     (by decide) (by decide) (by decide)⟩

/-- C15. A comment line neither closes nor alters the pending entry: a line whose
first character after the leading whitespace is `#` sets the state to
`STATE_COMMENT` and leaves the pending fragments and the dictionary as they
are; and for `k`, `v`, `c` without newline the lines `msgid "k"`, `#c`,
`msgstr "v"` and a blank line parse into the empty dictionary as the single
entry `k` to `v`. -/
theorem comment_line_keeps_pending_entry :
    (∀ (sc : Scan) (line : Str), (line.dropWhile isSpace).head? = some '#' →
      scanLine sc line = some { self := sc.self, lastMsgId := sc.lastMsgId,
                                lastMsgStr := sc.lastMsgStr, state := STATE_COMMENT }) ∧
    (∀ k v c : Str, NoNewline k → NoNewline v → NoNewline c →
      ParseAndLoad NewDictionary (unlines [msgidLine k, commentLine c, msgstrLine v, []])
        = .returned (AList.singleton k v) none) := by
  constructor
  · intro sc line h
    exact scanLine_comment sc line h
  · intro k v c h1 h2 h3
    have hl : ∀ l ∈ [msgidLine k, commentLine c, msgstrLine v, []], NoNewline l := by
      simp [NoNewline_msgidLine, NoNewline_msgstrLine, NoNewline_commentLine, NoNewline_nil,
        h1, h2, h3]
    unfold ParseAndLoad
    rw [Split_unlines _ hl]
    simp only [List.cons_append, List.nil_append]
    rw [scanLines_cons _ _ _ _ (scanLine_msgidLine _ k h1),
      scanLines_cons _ _ _ _ (scanLine_commentLine _ c),
      scanLines_cons _ _ _ _ (scanLine_msgstrLine _ v h2),
      scanLines_cons _ _ _ _ (scanLine_blank_msgstr _ rfl),
      scanLines_cons _ _ _ _ (scanLine_nil_complete _ rfl), scanLines_nil]
    simp [Join, AddMessage, NewDictionary, AList.insert_empty]

/-- C15 on the line `  # note` read in `STATE_MSGSTR` with pending fragments, and
on the lines `msgid "a"`, `#, fuzzy`, `msgstr "1"`, blank. -/
theorem comment_line_keeps_pending_entry_witness :
    scanLine { self := NewDictionary, lastMsgId := ["k".toList], lastMsgStr := ["v".toList],
               state := STATE_MSGSTR } "  # note".toList
      = some { self := NewDictionary, lastMsgId := ["k".toList], lastMsgStr := ["v".toList],
               state := STATE_COMMENT } ∧
    ParseAndLoad NewDictionary "msgid \"a\"\n#, fuzzy\nmsgstr \"1\"\n\n".toList
      = .returned (AList.singleton "a".toList "1".toList) none :=
  ⟨comment_line_keeps_pending_entry.1 _ "  # note".toList (by decide),
   comment_line_keeps_pending_entry.2 "a".toList "1".toList ", fuzzy".toList
     (by decide) (by decide) (by decide)⟩

/-- C16. Continuation routing: a line that is not blank, not a comment, does not
begin with `msgid` or `msgstr` and on which `StringRegExp` matches with group
`g` appends `g` as the last key fragment in `STATE_MSGID`, as the last value
fragment in `STATE_MSGSTR`, and changes nothing in `STATE_COMPLETE` and
`STATE_COMMENT`; and for `s`, `k`, `v`, `c` without newline both `"s"\nmsgid
"k"\nmsgstr "v"\n\n` and `msgid "k"\n#c\n"s"\nmsgstr "v"\n\n` parse into the
empty dictionary as the single entry `k` to `v`. -/
theorem continuation_routing :
    (∀ (sc : Scan) (line g : Str), ¬ (line = [] ∨ ∀ c ∈ line, isSpace c = true) →
      (line.dropWhile isSpace).head? ≠ some '#' →
      HasPrefix line "msgid".toList = false → HasPrefix line "msgstr".toList = false →
      StringRegExp line = some g →
      (sc.state = STATE_MSGID →
        scanLine sc line = some { sc with lastMsgId := sc.lastMsgId ++ [g] }) ∧
      (sc.state = STATE_MSGSTR →
        scanLine sc line = some { sc with lastMsgStr := sc.lastMsgStr ++ [g] }) ∧
      (sc.state = STATE_COMPLETE ∨ sc.state = STATE_COMMENT → scanLine sc line = some sc)) ∧
    (∀ s k v : Str, NoNewline s → NoNewline k → NoNewline v →
      ParseAndLoad NewDictionary (unlines [quotedLine s, msgidLine k, msgstrLine v, []])
        = .returned (AList.singleton k v) none) ∧
    (∀ s k v c : Str, NoNewline s → NoNewline k → NoNewline v → NoNewline c →
      ParseAndLoad NewDictionary
          (unlines [msgidLine k, commentLine c, quotedLine s, msgstrLine v, []])
        = .returned (AList.singleton k v) none) := by
  refine ⟨?_, ?_, ?_⟩
  · intro sc line g hnb hnc hp1 hp2 hs
    have e := scanLine_continuation sc line g hnb hnc hp1 hp2 hs
    refine ⟨?_, ?_, ?_⟩
    · intro h
      rw [e, if_pos h]
    · intro h
      have hne : sc.state ≠ STATE_MSGID := by rw [h]; decide
      rw [e, if_neg hne, if_pos h]
    · intro h
      have hne1 : sc.state ≠ STATE_MSGID := by rcases h with h | h <;> rw [h] <;> decide
      have hne2 : sc.state ≠ STATE_MSGSTR := by rcases h with h | h <;> rw [h] <;> decide
      rw [e, if_neg hne1, if_neg hne2]
  · intro s k v h0 h1 h2
    have hl : ∀ l ∈ [quotedLine s, msgidLine k, msgstrLine v, []], NoNewline l := by
      simp [NoNewline_msgidLine, NoNewline_msgstrLine, NoNewline_quotedLine, NoNewline_nil,
        h0, h1, h2]
    unfold ParseAndLoad
    rw [Split_unlines _ hl]
    simp only [List.cons_append, List.nil_append]
    rw [scanLines_cons _ _ _ _ (scanLine_quotedLine_ignored _ s h0 (Or.inl rfl)),
      scanLines_cons _ _ _ _ (scanLine_msgidLine _ k h1),
      scanLines_cons _ _ _ _ (scanLine_msgstrLine _ v h2),
      scanLines_cons _ _ _ _ (scanLine_blank_msgstr _ rfl),
      scanLines_cons _ _ _ _ (scanLine_nil_complete _ rfl), scanLines_nil]
    simp [Join, AddMessage, NewDictionary, AList.insert_empty]
  · intro s k v c h0 h1 h2 h3
    have hl : ∀ l ∈ [msgidLine k, commentLine c, quotedLine s, msgstrLine v, []],
        NoNewline l := by
      simp [NoNewline_msgidLine, NoNewline_msgstrLine, NoNewline_quotedLine,
        NoNewline_commentLine, NoNewline_nil, h0, h1, h2, h3]
    unfold ParseAndLoad
    rw [Split_unlines _ hl]
    simp only [List.cons_append, List.nil_append]
    rw [scanLines_cons _ _ _ _ (scanLine_msgidLine _ k h1),
      scanLines_cons _ _ _ _ (scanLine_commentLine _ c),
      scanLines_cons _ _ _ _ (scanLine_quotedLine_ignored _ s h0 (Or.inr rfl)),
      scanLines_cons _ _ _ _ (scanLine_msgstrLine _ v h2),
      scanLines_cons _ _ _ _ (scanLine_blank_msgstr _ rfl),
      scanLines_cons _ _ _ _ (scanLine_nil_complete _ rfl), scanLines_nil]
    simp [Join, AddMessage, NewDictionary, AList.insert_empty]

/-- C16 on the line `  "s" tail` read in `STATE_MSGID`, and on the two texts with
`s`, `a`, `1` and the comment `#c`. -/
theorem continuation_routing_witness :
    scanLine { self := NewDictionary, lastMsgId := ["k".toList], lastMsgStr := [],
               state := STATE_MSGID } "  \"s\" tail".toList
      = some { self := NewDictionary, lastMsgId := ["k".toList, "s".toList], lastMsgStr := [],
               state := STATE_MSGID } ∧
    ParseAndLoad NewDictionary "\"s\"\nmsgid \"a\"\nmsgstr \"1\"\n\n".toList
      = .returned (AList.singleton "a".toList "1".toList) none ∧
    ParseAndLoad NewDictionary "msgid \"a\"\n#c\n\"s\"\nmsgstr \"1\"\n\n".toList
      = .returned (AList.singleton "a".toList "1".toList) none :=
  ⟨(continuation_routing.1 _ "  \"s\" tail".toList "s".toList (by decide) (by decide)
      (by decide) (by decide) (by decide)).1 rfl,
   continuation_routing.2.1 "s".toList "a".toList "1".toList
     (by decide) (by decide) (by decide),
   continuation_routing.2.2 "s".toList "a".toList "1".toList "c".toList
     (by decide) (by decide) (by decide) (by decide)⟩

/-- C19. A single terminating newline completes the last entry: for `k` and `v`
without newline the text `msgid "k"\nmsgstr "v"\n` splits into the two lines
and an empty last line, and parses into the empty dictionary as the single
entry `k` to `v`. -/
theorem final_newline_completes_entry (k v : Str) (hk : NoNewline k) (hv : NoNewline v) :
    Split (unlines [msgidLine k, msgstrLine v]) = [msgidLine k, msgstrLine v, []] ∧
    ParseAndLoad NewDictionary (unlines [msgidLine k, msgstrLine v])
      = .returned (AList.singleton k v) none := by
  have hl : ∀ l ∈ [msgidLine k, msgstrLine v], NoNewline l := by
    simp [NoNewline_msgidLine, NoNewline_msgstrLine, hk, hv]
  refine ⟨Split_unlines _ hl, ?_⟩
  unfold ParseAndLoad
  rw [Split_unlines _ hl]
  simp only [List.cons_append, List.nil_append]
  rw [scanLines_cons _ _ _ _ (scanLine_msgidLine _ k hk),
    scanLines_cons _ _ _ _ (scanLine_msgstrLine _ v hv),
    scanLines_cons _ _ _ _ (scanLine_blank_msgstr _ rfl), scanLines_nil]
  simp [Join, AddMessage, NewDictionary, AList.insert_empty]

/-- C19 on the text `msgid "a"\nmsgstr "1"\n`. -/
theorem final_newline_completes_entry_witness :
    Split "msgid \"a\"\nmsgstr \"1\"\n".toList
      = ["msgid \"a\"".toList, "msgstr \"1\"".toList, []] ∧
    ParseAndLoad NewDictionary "msgid \"a\"\nmsgstr \"1\"\n".toList
      = .returned (AList.singleton "a".toList "1".toList) none :=
  final_newline_completes_entry "a".toList "1".toList (by decide) (by decide)

/-- C20. A comment between the msgstr line and the blank line blocks the
insertion: for `k1`, `v1`, `k2`, `v2`, `c` without newline the text `msgid
"k1"\nmsgstr "v1"\n#c\n\nmsgid "k2"\nmsgstr "v2"\n\n` parses into the empty
dictionary as the single entry `k1 ++ k2` to `v1 ++ v2`, and the text cut after
its first blank line, `msgid "k1"\nmsgstr "v1"\n#c\n\n`, as no entry. -/
theorem comment_blocks_insertion (k1 v1 k2 v2 c : Str)
    (h1 : NoNewline k1) (h2 : NoNewline v1) (h3 : NoNewline k2) (h4 : NoNewline v2)
    (h5 : NoNewline c) :
    ParseAndLoad NewDictionary
        (unlines [msgidLine k1, msgstrLine v1, commentLine c, [], msgidLine k2,
          msgstrLine v2, []])
      = .returned (AList.singleton (k1 ++ k2) (v1 ++ v2)) none ∧
    ParseAndLoad NewDictionary (unlines [msgidLine k1, msgstrLine v1, commentLine c, []])
      = .returned NewDictionary none := by
  constructor
  · have hl : ∀ l ∈ [msgidLine k1, msgstrLine v1, commentLine c, [], msgidLine k2,
        msgstrLine v2, []], NoNewline l := by
      simp [NoNewline_msgidLine, NoNewline_msgstrLine, NoNewline_commentLine, NoNewline_nil,
        h1, h2, h3, h4, h5]
    unfold ParseAndLoad
    rw [Split_unlines _ hl]
    simp only [List.cons_append, List.nil_append]
    rw [scanLines_cons _ _ _ _ (scanLine_msgidLine _ k1 h1),
      scanLines_cons _ _ _ _ (scanLine_msgstrLine _ v1 h2),
      scanLines_cons _ _ _ _ (scanLine_commentLine _ c),
      scanLines_cons _ _ _ _ (scanLine_nil_comment _ rfl),
      scanLines_cons _ _ _ _ (scanLine_msgidLine _ k2 h3),
      scanLines_cons _ _ _ _ (scanLine_msgstrLine _ v2 h4),
      scanLines_cons _ _ _ _ (scanLine_blank_msgstr _ rfl),
      scanLines_cons _ _ _ _ (scanLine_nil_complete _ rfl), scanLines_nil]
    simp [Join, AddMessage, NewDictionary, AList.insert_empty]
  · have hl : ∀ l ∈ [msgidLine k1, msgstrLine v1, commentLine c, []], NoNewline l := by
      simp [NoNewline_msgidLine, NoNewline_msgstrLine, NoNewline_commentLine, NoNewline_nil,
        h1, h2, h5]
    unfold ParseAndLoad
    rw [Split_unlines _ hl]
    simp only [List.cons_append, List.nil_append]
    rw [scanLines_cons _ _ _ _ (scanLine_msgidLine _ k1 h1),
      scanLines_cons _ _ _ _ (scanLine_msgstrLine _ v1 h2),
      scanLines_cons _ _ _ _ (scanLine_commentLine _ c),
      scanLines_cons _ _ _ _ (scanLine_nil_comment _ rfl),
      scanLines_cons _ _ _ _ (scanLine_nil_comment _ rfl), scanLines_nil]

/-- C20 on `a`, `1`, `b`, `2` and the comment `# c`. -/
theorem comment_blocks_insertion_witness :
    ParseAndLoad NewDictionary
        "msgid \"a\"\nmsgstr \"1\"\n# c\n\nmsgid \"b\"\nmsgstr \"2\"\n\n".toList
      = .returned (AList.singleton "ab".toList "12".toList) none ∧
    ParseAndLoad NewDictionary "msgid \"a\"\nmsgstr \"1\"\n# c\n\n".toList
      = .returned NewDictionary none :=
  comment_blocks_insertion "a".toList "1".toList "b".toList "2".toList " c".toList
    (by decide) (by decide) (by decide) (by decide) (by decide)

/-! ## The fragment taken from a line -/

theorem dropWhile_isSpace_append_quote (ws r : Str) (h : ∀ c ∈ ws, isSpace c = true) :
    (ws ++ '"' :: r).dropWhile isSpace = '"' :: r := by
  induction ws with
  | nil => simp [List.dropWhile, isSpace]
  | cons c ws ih =>
    have hc := h c (List.mem_cons_self _ _)
    have hr : ∀ x ∈ ws, isSpace x = true := fun x m => h x (List.mem_cons_of_mem _ m)
    simp [List.dropWhile, hc, ih hr]

theorem takeWhile_isSpace_append_quote (ws r : Str) (h : ∀ c ∈ ws, isSpace c = true) :
    (ws ++ '"' :: r).takeWhile isSpace = ws := by
  induction ws with
  | nil => simp [List.takeWhile, isSpace]
  | cons c ws ih =>
    have hc := h c (List.mem_cons_self _ _)
    have hr : ∀ x ∈ ws, isSpace x = true := fun x m => h x (List.mem_cons_of_mem _ m)
    simp [List.takeWhile, hc, ih hr]

theorem HasPrefix_append (kw r : Str) : HasPrefix (kw ++ r) kw = true := by
  unfold HasPrefix
  rw [List.isPrefixOf_iff_prefix]
  exact List.prefix_append kw r

theorem keywordRegExp_start (kw ws g t : Str) (hne : ws ≠ [])
    (hws : ∀ c ∈ ws, isSpace c = true) (hg : NoNewline g) (ht : '"' ∉ t) :
    keywordRegExp kw (kw ++ (ws ++ '"' :: (g ++ '"' :: t))) = some g := by
  unfold keywordRegExp
  rw [if_pos (HasPrefix_append kw _)]
  simp only [List.drop_left]
  rw [dropWhile_isSpace_append_quote ws _ hws, takeWhile_isSpace_append_quote ws _ hws]
  simp only [true_and]
  rw [if_pos hne]
  exact dotStarQuote_append g t hg ht

theorem StringRegExp_between (a g t : Str) (ha : '"' ∉ a) (hg : NoNewline g) (ht : '"' ∉ t) :
    StringRegExp (a ++ '"' :: (g ++ '"' :: t)) = some g := by
  induction a with
  | nil => simp [StringRegExp, dotStarQuote_append g t hg ht]
  | cons c a ih =>
    have hc : c ≠ '"' := fun e => ha (by simp [e])
    have hr : '"' ∉ a := fun m => ha (List.mem_cons_of_mem _ m)
    simp [StringRegExp, hc, ih hr]

theorem scanLine_msgid_start (sc : Scan) (ws g t : Str) (hne : ws ≠ [])
    (hws : ∀ c ∈ ws, isSpace c = true) (hg : NoNewline g) (ht : '"' ∉ t) :
    scanLine sc ("msgid".toList ++ (ws ++ '"' :: (g ++ '"' :: t))) =
      some { sc with state := STATE_MSGID, lastMsgId := sc.lastMsgId ++ [g] } := by
  have h : MsgIdRegExp ("msgid".toList ++ (ws ++ '"' :: (g ++ '"' :: t))) = some g :=
    keywordRegExp_start _ ws g t hne hws hg ht
  have c1 : ¬ (("msgid".toList ++ (ws ++ '"' :: (g ++ '"' :: t))).length = 0 ∨
      EmptyLineRegExp ("msgid".toList ++ (ws ++ '"' :: (g ++ '"' :: t))) = true) := by
    simp [EmptyLineRegExp, isSpace]
  have c2 : ¬ (("msgid".toList ++ (ws ++ '"' :: (g ++ '"' :: t))).head? = some '#' ∨
      CommentRegExp ("msgid".toList ++ (ws ++ '"' :: (g ++ '"' :: t))) = true) := by
    simp [CommentRegExp, isSpace, List.dropWhile]
  unfold scanLine
  rw [if_neg c1, if_neg c2, if_pos (Or.inl (HasPrefix_append _ _)), h]

theorem scanLine_msgstr_start (sc : Scan) (ws g t : Str) (hne : ws ≠ [])
    (hws : ∀ c ∈ ws, isSpace c = true) (hg : NoNewline g) (ht : '"' ∉ t) :
    scanLine sc ("msgstr".toList ++ (ws ++ '"' :: (g ++ '"' :: t))) =
      some { sc with state := STATE_MSGSTR, lastMsgStr := sc.lastMsgStr ++ [g] } := by
  have h : MsgStrRegExp ("msgstr".toList ++ (ws ++ '"' :: (g ++ '"' :: t))) = some g :=
    keywordRegExp_start _ ws g t hne hws hg ht
  have c1 : ¬ (("msgstr".toList ++ (ws ++ '"' :: (g ++ '"' :: t))).length = 0 ∨
      EmptyLineRegExp ("msgstr".toList ++ (ws ++ '"' :: (g ++ '"' :: t))) = true) := by
    simp [EmptyLineRegExp, isSpace]
  have c2 : ¬ (("msgstr".toList ++ (ws ++ '"' :: (g ++ '"' :: t))).head? = some '#' ∨
      CommentRegExp ("msgstr".toList ++ (ws ++ '"' :: (g ++ '"' :: t))) = true) := by
    simp [CommentRegExp, isSpace, List.dropWhile]
  have c3 : ¬ (HasPrefix ("msgstr".toList ++ (ws ++ '"' :: (g ++ '"' :: t))) "msgid".toList = true ∨
      (MsgIdRegExp ("msgstr".toList ++ (ws ++ '"' :: (g ++ '"' :: t)))).isSome = true) := by
    simp [HasPrefix, MsgIdRegExp, keywordRegExp]
  unfold scanLine
  rw [if_neg c1, if_neg c2, if_neg c3, if_pos (Or.inl (HasPrefix_append _ _)), h]

theorem not_blank_of_quote (line : Str) (h : '"' ∈ line) :
    ¬ (line = [] ∨ ∀ c ∈ line, isSpace c = true) := by
  intro hb
  rcases hb with hb | hb
  · subst hb
    simp at h
  · have := hb '"' h
    simp [isSpace] at this

theorem no_quote_of_isSpace (ws : Str) (h : ∀ c ∈ ws, isSpace c = true) : '"' ∉ ws := by
  intro m
  have := h '"' m
  simp [isSpace] at this

/-- C17, amended. Payload extraction: on a line made of `msgid` (respectively
`msgstr`), one or more whitespace characters, a double quote, a text `g`
without newline, a double quote and a text `t` without double quote, the
fragment appended to the key (respectively value) fragments is `g`, the text
strictly between the first and the last double quote of the line; on a line
`a"g"t` with no double quote in `a` and `t` that is not a comment and does not
begin with `msgid` or `msgstr`, the fragment routed by the state is again `g`;
and a msgid-start line is also matched, with the group `g`, by `StringRegExp`,
and is treated as msgid-start. -/
theorem payload_extraction :
    (∀ (sc : Scan) (ws g t : Str), ws ≠ [] → (∀ c ∈ ws, isSpace c = true) → NoNewline g →
      '"' ∉ t →
      scanLine sc ("msgid".toList ++ (ws ++ '"' :: (g ++ '"' :: t)))
        = some { sc with state := STATE_MSGID, lastMsgId := sc.lastMsgId ++ [g] }) ∧
    (∀ (sc : Scan) (ws g t : Str), ws ≠ [] → (∀ c ∈ ws, isSpace c = true) → NoNewline g →
      '"' ∉ t →
      scanLine sc ("msgstr".toList ++ (ws ++ '"' :: (g ++ '"' :: t)))
        = some { sc with state := STATE_MSGSTR, lastMsgStr := sc.lastMsgStr ++ [g] }) ∧
    (∀ (sc : Scan) (a g t : Str), '"' ∉ a → NoNewline g → '"' ∉ t →
      ((a ++ '"' :: (g ++ '"' :: t)).dropWhile isSpace).head? ≠ some '#' →
      HasPrefix (a ++ '"' :: (g ++ '"' :: t)) "msgid".toList = false →
      HasPrefix (a ++ '"' :: (g ++ '"' :: t)) "msgstr".toList = false →
      scanLine sc (a ++ '"' :: (g ++ '"' :: t))
        = some (if sc.state = STATE_MSGID then { sc with lastMsgId := sc.lastMsgId ++ [g] }
                else if sc.state = STATE_MSGSTR then
                  { sc with lastMsgStr := sc.lastMsgStr ++ [g] }
                else sc)) ∧
    (∀ (ws g t : Str), (∀ c ∈ ws, isSpace c = true) → NoNewline g → '"' ∉ t →
      StringRegExp ("msgid".toList ++ (ws ++ '"' :: (g ++ '"' :: t))) = some g) := by
  refine ⟨?_, ?_, ?_, ?_⟩
  · intro sc ws g t hne hws hg ht
    exact scanLine_msgid_start sc ws g t hne hws hg ht
  · intro sc ws g t hne hws hg ht
    exact scanLine_msgstr_start sc ws g t hne hws hg ht
  · intro sc a g t ha hg ht hnc hp1 hp2
    exact scanLine_continuation sc _ g (not_blank_of_quote _ (by simp)) hnc hp1 hp2
      (StringRegExp_between a g t ha hg ht)
  · intro ws g t hws hg ht
    have ha : '"' ∉ "msgid".toList ++ ws := by
      intro m
      rcases List.mem_append.mp m with m | m
      · revert m; decide
      · exact no_quote_of_isSpace ws hws m
    have e := StringRegExp_between ("msgid".toList ++ ws) g t ha hg ht
    rwa [List.append_assoc] at e

/-- C17, amended, on the lines `msgid \t"a "b" c" tail`, `msgstr "v"x`, and
`  say "hi" and "bye".` read in `STATE_MSGSTR`. -/
theorem payload_extraction_witness :
    scanLine { self := NewDictionary, lastMsgId := [], lastMsgStr := [],
               state := STATE_COMPLETE } "msgid \t\"a \"b\" c\" tail".toList
      = some { self := NewDictionary, lastMsgId := ["a \"b\" c".toList], lastMsgStr := [],
               state := STATE_MSGID } ∧
    scanLine { self := NewDictionary, lastMsgId := [], lastMsgStr := [],
               state := STATE_COMPLETE } "msgstr \"v\"x".toList
      = some { self := NewDictionary, lastMsgId := [], lastMsgStr := ["v".toList],
               state := STATE_MSGSTR } ∧
    scanLine { self := NewDictionary, lastMsgId := [], lastMsgStr := ["v".toList],
               state := STATE_MSGSTR } "  say \"hi\" and \"bye\".".toList
      = some { self := NewDictionary, lastMsgId := [],
               lastMsgStr := ["v".toList, "hi\" and \"bye".toList],
               state := STATE_MSGSTR } ∧
    StringRegExp "msgid \"a\"".toList = some "a".toList :=
  ⟨payload_extraction.1 _ " \t".toList "a \"b\" c".toList " tail".toList
      (by decide) (by decide) (by decide) (by decide),
   payload_extraction.2.1 _ " ".toList "v".toList "x".toList
      (by decide) (by decide) (by decide) (by decide),
   payload_extraction.2.2.1 _ "  say ".toList "hi\" and \"bye".toList ".".toList
      (by decide) (by decide) (by decide) (by decide) (by decide) (by decide),
   payload_extraction.2.2.2 " ".toList "a".toList [] (by decide) (by decide) (by decide)⟩

/-- C17 as stated fails: `msgid_plural "x"` has no newline, is not blank, is not
a comment, holds two double quotes and is not `msgid` or `msgstr` followed by
whitespace and a double quote; read in `STATE_MSGID`, it makes the scanner
panic and no fragment is appended. -/
theorem payload_extraction_fails_on_keyword_prefix :
    ¬ ∀ (sc : Scan) (a g t : Str), '"' ∉ a → '"' ∉ t →
      NoNewline (a ++ '"' :: (g ++ '"' :: t)) →
      ((a ++ '"' :: (g ++ '"' :: t)).dropWhile isSpace).head? ≠ some '#' →
      (¬ ∃ ws r : Str, ws ≠ [] ∧ (∀ c ∈ ws, isSpace c = true) ∧
        (a ++ '"' :: (g ++ '"' :: t) = "msgid".toList ++ (ws ++ '"' :: r) ∨
         a ++ '"' :: (g ++ '"' :: t) = "msgstr".toList ++ (ws ++ '"' :: r))) →
      scanLine sc (a ++ '"' :: (g ++ '"' :: t))
        = some (if sc.state = STATE_MSGID then { sc with lastMsgId := sc.lastMsgId ++ [g] }
                else if sc.state = STATE_MSGSTR then
                  { sc with lastMsgStr := sc.lastMsgStr ++ [g] }
                else sc) := by
  intro hall
  have e : scanLine { self := NewDictionary, lastMsgId := [], lastMsgStr := [],
                      state := STATE_MSGID }
      ("msgid_plural ".toList ++ '"' :: ("x".toList ++ '"' :: [])) = none := rfl
  have h := hall { self := NewDictionary, lastMsgId := [], lastMsgStr := [],
                   state := STATE_MSGID } "msgid_plural ".toList "x".toList []
    (by decide) (by decide) (by decide) (by decide)
    (by
      rintro ⟨ws, r, hne, hws, hform⟩
      cases ws with
      | nil => exact hne rfl
      | cons c ws =>
        have hc := hws c (List.mem_cons_self _ _)
        rcases hform with hform | hform
        · simp at hform
          rw [← hform.1] at hc
          simp [isSpace] at hc
        · simp at hform)
  rw [e] at h
  cases h

/-! ## The entries a text adds -/

/-- One iteration of the scanner either panics whatever the dictionary is, or
adds to it entries that do not depend on it. -/
theorem scanLine_shape (ids strs : List Str) (st : State) (line : Str) :
    (∀ D : Dictionary,
      scanLine { self := D, lastMsgId := ids, lastMsgStr := strs, state := st } line = none) ∨
    (∃ (ps : List (Str × Str)) (ids2 strs2 : List Str) (st2 : State), ∀ D : Dictionary,
      scanLine { self := D, lastMsgId := ids, lastMsgStr := strs, state := st } line
        = some { self := addMessages D ps, lastMsgId := ids2, lastMsgStr := strs2,
                 state := st2 }) := by
  by_cases c1 : line.length = 0 ∨ EmptyLineRegExp line = true
  · right
    by_cases c0 : st = STATE_MSGSTR
    · refine ⟨[(Join ids, Join strs)], [], [], STATE_COMPLETE, fun D => ?_⟩
      unfold scanLine
      dsimp only
      rw [if_pos c1, if_pos c0]
      rfl
    · refine ⟨[], ids, strs, st, fun D => ?_⟩
      unfold scanLine
      dsimp only
      rw [if_pos c1, if_neg c0]
      rfl
  · by_cases c2 : line.head? = some '#' ∨ CommentRegExp line = true
    · right
      refine ⟨[], ids, strs, STATE_COMMENT, fun D => ?_⟩
      unfold scanLine
      dsimp only
      rw [if_neg c1, if_pos c2]
      rfl
    · by_cases c3 : HasPrefix line "msgid".toList = true ∨ (MsgIdRegExp line).isSome = true
      · cases e : MsgIdRegExp line with
        | none =>
          left
          intro D
          unfold scanLine
          dsimp only
          rw [if_neg c1, if_neg c2, if_pos c3, e]
        | some g =>
          right
          refine ⟨[], ids ++ [g], strs, STATE_MSGID, fun D => ?_⟩
          unfold scanLine
          dsimp only
          rw [if_neg c1, if_neg c2, if_pos c3, e]
          rfl
      · by_cases c4 : HasPrefix line "msgstr".toList = true ∨ (MsgStrRegExp line).isSome = true
        · cases e : MsgStrRegExp line with
          | none =>
            left
            intro D
            unfold scanLine
            dsimp only
            rw [if_neg c1, if_neg c2, if_neg c3, if_pos c4, e]
          | some g =>
            right
            refine ⟨[], ids, strs ++ [g], STATE_MSGSTR, fun D => ?_⟩
            unfold scanLine
            dsimp only
            rw [if_neg c1, if_neg c2, if_neg c3, if_pos c4, e]
            rfl
        · right
          cases e : StringRegExp line with
          | none =>
            refine ⟨[], ids, strs, st, fun D => ?_⟩
            unfold scanLine
            dsimp only
            rw [if_neg c1, if_neg c2, if_neg c3, if_neg c4, e]
            rfl
          | some g =>
            by_cases s1 : st = STATE_MSGID
            · refine ⟨[], ids ++ [g], strs, st, fun D => ?_⟩
              unfold scanLine
              dsimp only
              rw [if_neg c1, if_neg c2, if_neg c3, if_neg c4, e]
              dsimp only
              rw [if_pos s1]
              rfl
            · by_cases s2 : st = STATE_MSGSTR
              · refine ⟨[], ids, strs ++ [g], st, fun D => ?_⟩
                unfold scanLine
                dsimp only
                rw [if_neg c1, if_neg c2, if_neg c3, if_neg c4, e]
                dsimp only
                rw [if_neg s1, if_pos s2]
                rfl
              · refine ⟨[], ids, strs, st, fun D => ?_⟩
                unfold scanLine
                dsimp only
                rw [if_neg c1, if_neg c2, if_neg c3, if_neg c4, e]
                dsimp only
                rw [if_neg s1, if_neg s2]
                rfl

/-- The scanner either returns or panics whatever the dictionary is, and adds
to it entries that do not depend on it. -/
theorem scanLines_shape (lines : List Str) :
    ∀ (ids strs : List Str) (st : State), ∃ (ps : List (Str × Str)) (b : Bool),
      ∀ D : Dictionary,
        scanLines { self := D, lastMsgId := ids, lastMsgStr := strs, state := st } lines
          = if b then .returned (addMessages D ps) none else .panicked (addMessages D ps) := by
  induction lines with
  | nil =>
    intro ids strs st
    exact ⟨[], true, fun D => rfl⟩
  | cons line lines ih =>
    intro ids strs st
    rcases scanLine_shape ids strs st line with h | ⟨ps1, ids2, strs2, st2, h⟩
    · refine ⟨[], false, fun D => ?_⟩
      simp [scanLines, h D, addMessages]
    · obtain ⟨ps2, b, h2⟩ := ih ids2 strs2 st2
      refine ⟨ps1 ++ ps2, b, fun D => ?_⟩
      rw [scanLines_cons _ _ _ _ (h D), h2, addMessages_append]

theorem parse_shape (text : Str) :
    ∃ (ps : List (Str × Str)) (b : Bool), ∀ D : Dictionary,
      ParseAndLoad D text
        = if b then .returned (addMessages D ps) none else .panicked (addMessages D ps) :=
  scanLines_shape (Split text) [] [] STATE_COMPLETE

theorem addMessages_snoc (D : Dictionary) (ps : List (Str × Str)) (p : Str × Str) :
    addMessages D (ps ++ [p]) = AddMessage (addMessages D ps) p.1 p.2 := by
  rw [addMessages_append]
  rfl

theorem lookup_addMessages (k : Str) (ps : List (Str × Str)) :
    ∀ D : Dictionary, (addMessages D ps).lookup k =
      match (addMessages NewDictionary ps).lookup k with
      | some v => some v
      | none => D.lookup k := by
  induction ps using List.reverseRecOn with
  | nil =>
    intro D
    rfl
  | append_singleton ps p ih =>
    intro D
    rw [addMessages_snoc, addMessages_snoc]
    by_cases hk : k = p.1
    · subst hk
      simp [AddMessage, AList.lookup_insert]
    · rw [AddMessage, AddMessage, AList.lookup_insert_ne hk, AList.lookup_insert_ne hk]
      exact ih D

theorem perm_addMessages (ps : List (Str × Str)) :
    ∀ D1 D2 : Dictionary, D1.entries.Perm D2.entries →
      (addMessages D1 ps).entries.Perm (addMessages D2 ps).entries := by
  induction ps with
  | nil => intro D1 D2 h; exact h
  | cons p ps ih =>
    intro D1 D2 h
    exact ih _ _ (AList.perm_insert h)

theorem perm_of_lookup_eq (D1 D2 : Dictionary) (h : ∀ k, D1.lookup k = D2.lookup k) :
    D1.entries.Perm D2.entries := by
  apply List.lookup_ext D1.nodupKeys D2.nodupKeys
  intro x y
  have := h x
  unfold AList.lookup at this
  rw [this]

/-- C12. Parse determinism: `ParseAndLoad` starts from the state
`STATE_COMPLETE` with no pending fragment, whatever was parsed before; on two
dictionaries that hold the same pairs, two fresh empty ones in particular, and
the same text, the two calls both return a nil error or both panic, and they
leave dictionaries that hold the same pairs. -/
theorem parse_deterministic (text : Str) (D1 D2 : Dictionary)
    (h : D1.entries.Perm D2.entries) :
    ParseAndLoad D1 text
      = scanLines { self := D1, lastMsgId := [], lastMsgStr := [], state := STATE_COMPLETE }
          (Split text) ∧
    Outcome.Same (ParseAndLoad D1 text) (ParseAndLoad D2 text) := by
  refine ⟨rfl, ?_⟩
  obtain ⟨ps, b, hp⟩ := parse_shape text
  rw [hp D1, hp D2]
  cases b
  · exact perm_addMessages ps D1 D2 h
  · exact ⟨perm_addMessages ps D1 D2 h, rfl⟩

/-- C12 on two fresh dictionaries, for a text with two entries and a text on
which the scanner panics after the first entry, and on two dictionaries with
the same entries in another order. -/
theorem parse_deterministic_witness :
    Outcome.Same
      (ParseAndLoad NewDictionary "msgid \"a\"\nmsgstr \"1\"\n\nmsgid \"b\"\nmsgstr \"2\"\n".toList)
      (ParseAndLoad NewDictionary "msgid \"a\"\nmsgstr \"1\"\n\nmsgid \"b\"\nmsgstr \"2\"\n".toList) ∧
    Outcome.Same
      (ParseAndLoad NewDictionary "msgid \"a\"\nmsgstr \"1\"\n\nmsgid\n".toList)
      (ParseAndLoad NewDictionary "msgid \"a\"\nmsgstr \"1\"\n\nmsgid\n".toList) ∧
    Outcome.Same
      (ParseAndLoad sampleStore "msgid \"a\"\nmsgstr \"1\"\n\n".toList)
      (ParseAndLoad sampleStoreSwapped "msgid \"a\"\nmsgstr \"1\"\n\n".toList) :=
  ⟨(parse_deterministic _ NewDictionary NewDictionary (List.Perm.refl _)).2,
   (parse_deterministic _ NewDictionary NewDictionary (List.Perm.refl _)).2,
   (parse_deterministic _ sampleStore sampleStoreSwapped (List.Perm.swap _ _ [])).2⟩

/-- C18. Parsing directly into a dictionary equals parsing into a scratch
dictionary and merging: when `ParseAndLoad` on `D` and `text` returns, leaving
`D2`, then `ParseAndLoad` on a fresh empty dictionary returns a nil error,
leaving some `E`, `MergeFile` on `D` and this content returns the merge of `E`
into `D`, and `D2` holds the same pairs as that merge; no key of `D` is missing
from `D2`, and a key whose lookup changed is a key of `E`. -/
theorem parse_equals_scratch_merge (D D2 : Dictionary) (text : Str) (err : Option Error)
    (h : ParseAndLoad D text = .returned D2 err) :
    ∃ E : Dictionary,
      ParseAndLoad NewDictionary text = .returned E none ∧
      MergeFile D text = .returned (Merge D E).1 none ∧
      D2.entries.Perm (Merge D E).1.entries ∧
      (∀ k, D2.lookup k = (Merge D E).1.lookup k) ∧
      (∀ k, k ∈ D → k ∈ D2) ∧
      (∀ k, D2.lookup k ≠ D.lookup k → k ∈ E) := by
  obtain ⟨ps, b, hp⟩ := parse_shape text
  have hb : b = true := by
    cases b
    · rw [hp D] at h
      simp at h
    · rfl
  subst hb
  have hD2 : D2 = addMessages D ps := by
    rw [hp D] at h
    simp at h
    exact h.1.symm
  have hE : ParseAndLoad NewDictionary text = .returned (addMessages NewDictionary ps) none := by
    rw [hp NewDictionary]
    rfl
  have hlook : ∀ k, D2.lookup k =
      match (addMessages NewDictionary ps).lookup k with
      | some v => some v
      | none => D.lookup k := by
    intro k
    rw [hD2]
    exact lookup_addMessages k ps D
  have hmerge : ∀ k, (Merge D (addMessages NewDictionary ps)).1.lookup k =
      match (addMessages NewDictionary ps).lookup k with
      | some v => some v
      | none => D.lookup k :=
    fun k => lookup_foldl_AddMessage k _ (AList.nodupKeys _) D
  have heq : ∀ k, D2.lookup k = (Merge D (addMessages NewDictionary ps)).1.lookup k := by
    intro k
    rw [hlook k, hmerge k]
  refine ⟨addMessages NewDictionary ps, hE, ?_, perm_of_lookup_eq _ _ heq, heq, ?_, ?_⟩
  · unfold MergeFile
    rw [hE]
  · intro k hk
    rw [← AList.lookup_isSome] at hk ⊢
    rw [hlook k]
    cases (addMessages NewDictionary ps).lookup k with
    | none => exact hk
    | some v => rfl
  · intro k hk
    rw [← AList.lookup_isSome]
    rw [hlook k] at hk
    cases e : (addMessages NewDictionary ps).lookup k with
    | none =>
      rw [e] at hk
      exact absurd rfl hk
    | some v => rfl

/-- C18 on the dictionary `a -> 0`, `c -> 3` and the text of the entries
`a -> 1` and `b -> 2`. -/
theorem parse_equals_scratch_merge_witness :
    ∃ E : Dictionary,
      ParseAndLoad NewDictionary "msgid \"a\"\nmsgstr \"1\"\n\nmsgid \"b\"\nmsgstr \"2\"\n".toList
        = .returned E none ∧
      MergeFile sampleStore "msgid \"a\"\nmsgstr \"1\"\n\nmsgid \"b\"\nmsgstr \"2\"\n".toList
        = .returned (Merge sampleStore E).1 none ∧
      (AddMessage (AddMessage sampleStore "a".toList "1".toList) "b".toList
        "2".toList).entries.Perm (Merge sampleStore E).1.entries ∧
      (∀ k, (AddMessage (AddMessage sampleStore "a".toList "1".toList) "b".toList
        "2".toList).lookup k = (Merge sampleStore E).1.lookup k) ∧
      (∀ k, k ∈ sampleStore →
        k ∈ AddMessage (AddMessage sampleStore "a".toList "1".toList) "b".toList "2".toList) ∧
      (∀ k, (AddMessage (AddMessage sampleStore "a".toList "1".toList) "b".toList
        "2".toList).lookup k ≠ sampleStore.lookup k → k ∈ E) :=
  parse_equals_scratch_merge sampleStore
    (AddMessage (AddMessage sampleStore "a".toList "1".toList) "b".toList "2".toList)
    "msgid \"a\"\nmsgstr \"1\"\n\nmsgid \"b\"\nmsgstr \"2\"\n".toList none rfl

end Pofile
